import Mathlib

/-!
# gdlv `main.go`: a verification development

Go values are embedded as follows.

* A Go `string` and a `[]byte` are a list of bytes (`List Nat`, each byte below 256).
* A `[]rune` is a list of code points (`List Nat`).
* `int` is `Int`; the overflow of the 64-bit `int` is not modelled.
* A run-time panic (index out of range) is the `none` result of an `Option`.
* Calls to the debugger client, to the file system and to panel caches are
  explicit: their results are inputs, their invocations are recorded in the state.
-/

namespace Gdlv

/-! ## Go strings: UTF-8 decoding and encoding (language semantics) -/

/-- The replacement code point `utf8.RuneError` (U+FFFD). -/
def RuneError : Nat := 0xFFFD

/-- Continuation byte test: `locb <= b && b <= hicb`. -/
def isCont (b : Nat) : Bool := decide (0x80 ≤ b) && decide (b ≤ 0xBF)

/-- The decoding step `utf8.DecodeRuneInString`: the code point at the start of the
byte list and the number of bytes it occupies.  An invalid or truncated sequence
yields `(RuneError, 1)`; the empty list yields `(RuneError, 0)`. -/
def decodeRune : List Nat → Nat × Nat
  | [] => (RuneError, 0)
  | s0 :: rest =>
    if s0 < 0x80 then (s0, 1)
    else if s0 < 0xC2 then (RuneError, 1)
    else if s0 < 0xE0 then
      match rest with
      | s1 :: _ =>
        if isCont s1 then ((s0 % 32) * 64 + s1 % 64, 2) else (RuneError, 1)
      | [] => (RuneError, 1)
    else if s0 < 0xF0 then
      match rest with
      | s1 :: s2 :: _ =>
        if decide ((if s0 = 0xE0 then 0xA0 else 0x80) ≤ s1)
            && decide (s1 ≤ (if s0 = 0xED then 0x9F else 0xBF)) && isCont s2 then
          ((s0 % 16) * 4096 + (s1 % 64) * 64 + s2 % 64, 3)
        else (RuneError, 1)
      | _ => (RuneError, 1)
    else if s0 < 0xF5 then
      match rest with
      | s1 :: s2 :: s3 :: _ =>
        if decide ((if s0 = 0xF0 then 0x90 else 0x80) ≤ s1)
            && decide (s1 ≤ (if s0 = 0xF4 then 0x8F else 0xBF)) && isCont s2 && isCont s3 then
          ((s0 % 8) * 262144 + (s1 % 64) * 4096 + (s2 % 64) * 64 + s3 % 64, 4)
        else (RuneError, 1)
      | _ => (RuneError, 1)
    else (RuneError, 1)

/-- The encoding `utf8.EncodeRune`: surrogates and values above U+10FFFF are
encoded as `RuneError`. -/
def encodeRune (r : Nat) : List Nat :=
  if r ≤ 0x7F then [r]
  else if r ≤ 0x7FF then [0xC0 + r / 64, 0x80 + r % 64]
  else if 0x10FFFF < r ∨ (0xD800 ≤ r ∧ r ≤ 0xDFFF) then [0xEF, 0xBF, 0xBD]
  else if r ≤ 0xFFFF then [0xE0 + r / 4096, 0x80 + (r / 64) % 64, 0x80 + r % 64]
  else [0xF0 + r / 262144, 0x80 + (r / 4096) % 64, 0x80 + (r / 64) % 64, 0x80 + r % 64]

/-- The iteration `for _, c := range s`: `skip` is the number of bytes still covered
by the code point decoded last. -/
def runesFrom : Nat → List Nat → List Nat
  | _, [] => []
  | skip + 1, _ :: rest => runesFrom skip rest
  | 0, b :: rest =>
    (decodeRune (b :: rest)).1 :: runesFrom ((decodeRune (b :: rest)).2 - 1) rest

/-- The conversion `[]rune(s)`, also the sequence visited by `range s`. -/
def runes (s : List Nat) : List Nat := runesFrom 0 s

/-- The conversion `string(rs)` of a `[]rune`. -/
def stringOfRunes : List Nat → List Nat
  | [] => []
  | r :: rs => encodeRune r ++ stringOfRunes rs

/-- The bytes of a string literal of the source. -/
def lit (s : String) : List Nat :=
  s.toList.flatMap (fun c => (String.utf8EncodeChar c).map UInt8.toNat)

/-! ## `expandTabs` -/

/-- The call `buf.WriteRune(r)` on a `bytes.Buffer`. -/
def writeRune (buf : List Nat) (r : Nat) : List Nat := buf ++ encodeRune r

/-- The loop `for i := 0; i < d; i++ { buf.WriteRune(' ') }`. -/
def writeSpaces : Nat → List Nat → List Nat
  | 0, buf => buf
  | d + 1, buf => writeSpaces d (writeRune buf 32)

/-- The second loop of `expandTabs`, over the code points of the input, with the
column counter `count` and the output buffer `buf`. -/
def expandLoop : List Nat → Nat → List Nat → List Nat
  | [], _, buf => buf
  | c :: cs, count, buf =>
    if c = 9 then expandLoop cs 0 (writeSpaces (((count / 8) + 1) * 8 - count) buf)
    else if c = 10 then expandLoop cs 0 (writeRune buf 10)
    else expandLoop cs (count + 1) (writeRune buf c)

/-- Tab expansion on code points: what `expandLoop` writes, before encoding.  A
specification used to count the characters of the expanded text. -/
def expandRunes : List Nat → Nat → List Nat
  | [], _ => []
  | c :: cs, count =>
    if c = 9 then List.replicate (((count / 8) + 1) * 8 - count) 32 ++ expandRunes cs 0
    else if c = 10 then 10 :: expandRunes cs 0
    else c :: expandRunes cs (count + 1)

/-- A Unicode scalar value: what decoding yields and what encoding preserves. -/
def validRune (r : Nat) : Prop := r < 0xD800 ∨ (0xE000 ≤ r ∧ r ≤ 0x10FFFF)

/-- The first loop of `expandTabs`: is some code point of the input a tab? -/
def hasTab (s : List Nat) : Bool := (runes s).any (fun c => c == 9)

/-- The function `expandTabs(in string) string`. -/
def expandTabs (s : List Nat) : List Nat :=
  if hasTab s then expandLoop (runes s) 0 [] else s

/-! ## The text editor and `editorWriter.Write` -/

/-- The fields of `nucular.TextEditor` that `main.go` reads or writes; `ReadOnly` is
the `EditReadOnly` bit of `Flags`. -/
structure TextEditor where
  Buffer : List Nat
  Cursor : Int
  CursorFollow : Bool
  Redraw : Bool
  Active : Bool
  ReadOnly : Bool
deriving DecidableEq, Repr

/-- A zero-valued editor with the given `ReadOnly` and `Active` settings. -/
def newEditor (readOnly active : Bool) : TextEditor :=
  { Buffer := [], Cursor := 0, CursorFollow := false, Redraw := false,
    Active := active, ReadOnly := readOnly }

/-- The scrollback editor as `main` sets it up before the first write. -/
def scrollbackInit : TextEditor := newEditor true false

def scrollbackHighMark : Nat := 8 * 1024

def scrollbackLowMark : Nat := 4 * 1024

/-- The indexing expression `xs[i]` with an `int` index: `none` is the run-time panic
for an index out of range. -/
def index {α : Type} (xs : List α) (i : Int) : Option α :=
  if 0 ≤ i then xs[i.toNat]? else none

/-- The backwards scan of `Write` while `Cursor = oldcursor + k`.  For `k = 0` the
condition `Cursor > oldcursor` fails and the loop ends; otherwise `Buffer[Cursor]` is
read, a newline breaks the loop, anything else decrements `Cursor`. -/
def scanLoop (buf : List Nat) (oldcursor : Int) : Nat → Option Int
  | 0 => some oldcursor
  | k + 1 =>
    match index buf (oldcursor + (k + 1 : Nat)) with
    | none => none
    | some c => if c = 10 then some (oldcursor + (k + 1 : Nat)) else scanLoop buf oldcursor k

/-- The loop `for Cursor = len(Buffer) - 2; Cursor > oldcursor; Cursor--` of `Write`:
the value of `Cursor` when the loop ends, or `none` when a read panics. -/
def scanBack (buf : List Nat) (oldcursor : Int) : Option Int :=
  if (buf.length : Int) - 2 > oldcursor then
    scanLoop buf oldcursor ((buf.length : Int) - 2 - oldcursor).toNat
  else some ((buf.length : Int) - 2)

/-- The buffer indices that the backwards scan of `Write` reads while
`Cursor = oldcursor + k`, in the order of the reads: the instrumented `scanLoop`. -/
def scanReadsLoop (buf : List Nat) (oldcursor : Int) : Nat → List Int
  | 0 => []
  | k + 1 =>
    (oldcursor + (k + 1 : Nat)) ::
      match index buf (oldcursor + (k + 1 : Nat)) with
      | none => []
      | some c => if c = 10 then [] else scanReadsLoop buf oldcursor k

/-- The buffer indices that the loop of `scanBack` reads. -/
def scanReads (buf : List Nat) (oldcursor : Int) : List Int :=
  if (buf.length : Int) - 2 > oldcursor then
    scanReadsLoop buf oldcursor ((buf.length : Int) - 2 - oldcursor).toNat
  else []

/-- The buffer and the cursor after the append and the truncation of `Write`. -/
def appendTruncate (ed : TextEditor) (b : List Nat) : List Nat × Int :=
  let buf := ed.Buffer ++ runes (expandTabs b)
  if buf.length > scrollbackHighMark then
    (buf.drop scrollbackLowMark, ((buf.length - scrollbackLowMark : Nat) : Int) - 256)
  else (buf, ed.Cursor)

/-- The method `(w *editorWriter) Write(b []byte) (int, error)` on the editor `w.ed`:
the editor afterwards and the returned count (the error is always `nil`), or `none`
when the call panics.  The optional locking of `mu` is not part of the model. -/
def Write (ed : TextEditor) (b : List Nat) : Option (TextEditor × Nat) :=
  match scanBack (appendTruncate ed b).1 (appendTruncate ed b).2 with
  | none => none
  | some c =>
    some ({ ed with
            Buffer := (appendTruncate ed b).1
            Cursor := if c > 0 then c + 1 else c
            CursorFollow := true
            Redraw := true }, b.length)

/-- A sequence of `Write` calls on one editor. -/
def writeAll : TextEditor → List (List Nat) → Option TextEditor
  | ed, [] => some ed
  | ed, b :: bs =>
    match Write ed b with
    | none => none
    | some (ed1, _) => writeAll ed1 bs

/-- The text that `main` writes to the scrollback before any other writer exists. -/
def banner : List Nat :=
  lit "gdlv  Copyright (C) 2016  Alessandro Arzilli\n" ++
  lit "This program comes with ABSOLUTELY NO WARRANTY;\n" ++
  lit "This is free software, and you are welcome to redistribute it\n" ++
  lit "under certain conditions; see COPYING for details.\n"

/-- An editor that holds the one line `ok`, the cursor at its end. -/
def lineEditor : TextEditor :=
  { scrollbackInit with Buffer := runes (lit "ok\n"), Cursor := 3 }

/-- The call `fmt.Fprintf(&scrollbackOut, ...)`: one `Write` of the formatted text. -/
def fprint (ed : TextEditor) (text : List Nat) : Option TextEditor :=
  (Write ed text).map Prod.fst

/-! ## The session: the package-level variables of `main.go` -/

/-- An `error` value, by its message. -/
abbrev Error := List Nat

/-- The type `api.Function`. -/
structure Function where
  Name : List Nat
deriving DecidableEq, Repr

/-- The type `api.Location`. -/
structure Location where
  PC : Nat
  File : List Nat
  Line : Int
  Function : Option Function
deriving DecidableEq, Repr

/-- The fields of `api.Thread` that `refreshState` reads. -/
structure Thread where
  ID : Int
  PC : Nat
  File : List Nat
  Line : Int
deriving DecidableEq, Repr

/-- The fields of `api.Goroutine` that `refreshState` reads. -/
structure Goroutine where
  ID : Int
  CurrentLoc : Location
  ThreadID : Int
deriving DecidableEq, Repr

/-- The fields of `api.DebuggerState` that `refreshState` reads. -/
structure DebuggerState where
  CurrentThread : Option Thread
  SelectedGoroutine : Option Goroutine
  NextInProgress : Bool
deriving DecidableEq, Repr

/-- The type `api.Stackframe`, which embeds its `Location`. -/
structure Stackframe where
  Location : Location
deriving DecidableEq, Repr

/-- The fields of `api.Breakpoint` that `refreshState` reads. -/
structure Breakpoint where
  ID : Int
  File : List Nat
  Line : Int
deriving DecidableEq, Repr

/-- One instruction of `api.AsmInstructions`. -/
structure AsmInstruction where
  PC : Nat
  Text : List Nat
deriving DecidableEq, Repr

/-- The type `api.AssemblyFlavour`. -/
inductive AssemblyFlavour where
  | GNUFlavour
  | IntelFlavour
deriving DecidableEq, Repr

/-- The methods of `service.Client` that `refreshState` calls, as the answers the
server gives. -/
structure Client where
  GetState : Except Error DebuggerState
  Stacktrace : Int → Int → Except Error (List Stackframe)
  DisassemblePC : Int → Int → Nat → AssemblyFlavour → Except Error (List AsmInstruction)
  ListBreakpoints : Except Error (List Breakpoint)

/-- What lies outside the program: the file system (`os.Open` followed by a
`bufio.Scanner`: the lines scanned and the scanner's final error) and the floating
point expression `int(math.Floor(math.Log10(float64(n))))` of `digits`. -/
structure Env where
  openFile : List Nat → Except Error (List (List Nat) × Option Error)
  floorLog10 : Int → Int

/-- The type `listline`. -/
structure listline where
  idx : List Nat
  lineno : Int
  text : List Nat
  pc : Bool
  bp : Option Breakpoint
deriving DecidableEq, Repr

/-- The variable `listingPanel`. -/
structure ListingPanel where
  file : List Nat
  path : List Nat
  recenterListing : Bool
  recenterDisassembly : Bool
  listing : List listline
  text : List AsmInstruction
deriving DecidableEq, Repr

/-- The panels whose `asyncLoad` cache `refreshState` clears. -/
inductive Panel where
  | locals
  | exprs
  | regs
  | goroutines
  | stack
  | threads
  | globals
  | breakpoints
deriving DecidableEq, Repr

/-- The package-level variables.  `cleared` records the calls of `asyncLoad.clear()`,
`executed` the commands handed to `go executeCommand(cmd)`, `wndChanged` the calls of
`wnd.Changed()`, `disassemblyFlavour` is `conf.DisassemblyFlavour`. -/
structure Session where
  running : Bool
  nextInProgress : Bool
  connectionFailed : Bool
  client : Option Client
  curThread : Int
  curGid : Int
  curFrame : Int
  scrollbackEditor : TextEditor
  commandLineEditor : TextEditor
  cmdhistory : List (List Nat)
  historyShown : Int
  listingPanel : ListingPanel
  cleared : List Panel
  executed : List (List Nat)
  wndChanged : Nat
  disassemblyFlavour : Int

/-- A client whose every call fails with the message `unavailable`. -/
def failingClient : Client :=
  { GetState := .error (lit "unavailable")
    Stacktrace := fun _ _ => .error (lit "unavailable")
    DisassemblePC := fun _ _ _ _ => .error (lit "unavailable")
    ListBreakpoints := .error (lit "unavailable") }

/-- The variables as `main` leaves them before the first write: no client, no thread
and no goroutine selected, an empty history. -/
def initSession : Session :=
  { running := false
    nextInProgress := false
    connectionFailed := false
    client := none
    curThread := -1
    curGid := -1
    curFrame := 0
    scrollbackEditor := scrollbackInit
    commandLineEditor := newEditor false true
    cmdhistory := []
    historyShown := 0
    listingPanel :=
      { file := [], path := [], recenterListing := false, recenterDisassembly := false,
        listing := [], text := [] }
    cleared := []
    executed := []
    wndChanged := 0
    disassemblyFlavour := 0 }

/-- The session while `connectTo` loads the program information: a command is
running and no thread is selected. -/
def loadingSession : Session :=
  { initSession with client := some failingClient, running := true }

/-- The session after the server's output ended without a connection: no client,
`connectionFailed` set. -/
def failedSession : Session :=
  { initSession with connectionFailed := true }

/-- A connected, idle session with the given thread, goroutine and frame. -/
def idleSession (thread gid frame : Int) : Session :=
  { initSession with
    client := some failingClient
    curThread := thread
    curGid := gid
    curFrame := frame }

/-- A connected, idle session whose history holds `continue` and `next`, with the
recall cursor at `shown` and the command line holding `buffer`. -/
def historySession (shown : Int) (buffer : List Nat) : Session :=
  { initSession with
    client := some failingClient
    cmdhistory := [lit "continue", lit "next"]
    historyShown := shown
    commandLineEditor := { newEditor false true with Buffer := buffer } }

/-! ## `prompt` and `currentPrompt` -/

/-- The verb `%d` of `fmt` on an `int`. -/
def fmtInt (n : Int) : List Nat := lit (toString n)

/-- The function `prompt(thread int, gid, frame int) string`. -/
def prompt (thread gid frame : Int) : List Nat :=
  if thread < 0 then []
  else if gid < 0 then lit "thread " ++ fmtInt thread ++ lit " frame " ++ fmtInt frame
  else lit "goroutine " ++ fmtInt gid ++ lit " frame " ++ fmtInt frame

/-- The function `currentPrompt() string`. -/
def currentPrompt (s : Session) : List Nat :=
  if s.running then lit "running"
  else if s.client.isNone then
    if s.connectionFailed then lit "failed" else lit "connecting"
  else
    if s.curThread < 0 then lit "dlv>"
    else prompt s.curThread s.curGid s.curFrame ++ lit ">"

/-! ## `updateCommandPanel` -/

/-- The key codes that `updateCommandPanel` tells apart. -/
inductive KeyCode where
  | CodeTab
  | CodeUpArrow
  | CodeDownArrow
  | other (code : Nat)
deriving DecidableEq, Repr

/-- A `key.Event`: its modifier bits and its code. -/
structure KeyEvent where
  Modifiers : Nat
  Code : KeyCode
deriving DecidableEq, Repr

/-- The loop over `kbd.Keys` of `updateCommandPanel`; the flag is `showHistory`.
`completeAny` is defined outside `main.go` and is a parameter. -/
def keyLoop (completeAny : Session → Session) : List KeyEvent → Session → Bool → Session × Bool
  | [], s, showHistory => (s, showHistory)
  | k :: ks, s, showHistory =>
    if k.Modifiers = 0 ∧ k.Code = KeyCode.CodeTab then
      keyLoop completeAny ks (completeAny s) showHistory
    else if k.Modifiers = 0 ∧ k.Code = KeyCode.CodeUpArrow then
      keyLoop completeAny ks { s with historyShown := s.historyShown - 1 } true
    else if k.Modifiers = 0 ∧ k.Code = KeyCode.CodeDownArrow then
      keyLoop completeAny ks { s with historyShown := s.historyShown + 1 } true
    else keyLoop completeAny ks s showHistory

/-- The block `if showHistory { ... }` of `updateCommandPanel`: the recall cursor is
brought back into range and the command line is loaded from the history. -/
def showHistoryStep (s : Session) : Option Session :=
  let shown : Int :=
    if s.historyShown < 0 then s.cmdhistory.length
    else if s.historyShown > s.cmdhistory.length then s.cmdhistory.length
    else s.historyShown
  if shown ≠ s.cmdhistory.length then
    match index s.cmdhistory shown with
    | none => none
    | some entry =>
      some { s with
        historyShown := shown
        commandLineEditor := { s.commandLineEditor with
          Buffer := runes entry
          Cursor := (runes entry).length
          CursorFollow := true } }
  else
    some { s with
      historyShown := shown
      commandLineEditor := { s.commandLineEditor with
        Buffer := []
        Cursor := 0
        CursorFollow := true } }

/-- The command line shows what the recall cursor points at: blank at the end of the
history, otherwise the entry under the cursor with the edit position at its end. -/
def historyLoaded (s : Session) : Prop :=
  (s.historyShown = s.cmdhistory.length →
    s.commandLineEditor.Buffer = [] ∧ s.commandLineEditor.Cursor = 0) ∧
  (s.historyShown ≠ s.cmdhistory.length →
    ∃ entry, index s.cmdhistory s.historyShown = some entry ∧
      s.commandLineEditor.Buffer = runes entry ∧
      s.commandLineEditor.Cursor = (runes entry).length)

/-- The key events of the up arrow and of the down arrow, without modifiers. -/
def upArrow : KeyEvent := { Modifiers := 0, Code := KeyCode.CodeUpArrow }

def downArrow : KeyEvent := { Modifiers := 0, Code := KeyCode.CodeDownArrow }

/-- The block `if commandLineEditor.Active { ... }` of `updateCommandPanel`. -/
def recallKeys (completeAny : Session → Session) (keys : List KeyEvent) (s : Session) :
    Option Session :=
  if s.commandLineEditor.Active then
    if (keyLoop completeAny keys s false).2 then
      showHistoryStep (keyLoop completeAny keys s false).1
    else some (keyLoop completeAny keys s false).1
  else some s

/-- The block `if active&nucular.EditCommitted != 0 { ... }` of `updateCommandPanel`,
with the prompt `p` computed before. -/
def commitCommand (p : List Nat) (s : Session) : Option Session :=
  let cmd := stringOfRunes s.commandLineEditor.Buffer
  let echoed : Option Session :=
    if cmd = [] then
      match index s.cmdhistory ((s.cmdhistory.length : Int) - 1) with
      | none => none
      | some last =>
        (fprint s.scrollbackEditor (p ++ lit " " ++ last ++ lit "\n")).map
          fun ed => { s with scrollbackEditor := ed }
    else
      (fprint s.scrollbackEditor (p ++ lit " " ++ cmd ++ lit "\n")).map
        fun ed => { s with cmdhistory := s.cmdhistory ++ [cmd], scrollbackEditor := ed }
  echoed.map fun s1 =>
    { s1 with
      historyShown := s1.cmdhistory.length
      executed := s1.executed ++ [cmd]
      commandLineEditor := { s1.commandLineEditor with
        Buffer := []
        Cursor := 0
        CursorFollow := true
        Active := true } }

/-- The function `updateCommandPanel`.  `groupOpen` tells whether `GroupBegin`
returned a window, `keys` is `kbd.Keys`, `edit` is the effect of
`commandLineEditor.Edit(w)` on the editor together with the `EditCommitted` flag.
Layout and drawing are not part of the model. -/
def updateCommandPanel (groupOpen : Bool) (keys : List KeyEvent)
    (completeAny : Session → Session) (edit : TextEditor → TextEditor × Bool)
    (s : Session) : Option Session :=
  if groupOpen then
    let p := currentPrompt s
    let s1 : Session := { s with
      commandLineEditor := { s.commandLineEditor with
        ReadOnly := s.client.isNone || s.running } }
    match recallKeys completeAny keys s1 with
    | none => none
    | some s2 =>
      let s3 : Session := { s2 with commandLineEditor := (edit s2.commandLineEditor).1 }
      if (edit s2.commandLineEditor).2 then commitCommand p s3 else some s3
  else some s

/-! ## `refreshState` -/

/-- The type `clearKind` with its four constants. -/
inductive clearKind where
  | clearFrameSwitch
  | clearGoroutineSwitch
  | clearStop
  | clearBreakpoint
deriving DecidableEq, Repr

/-- The type `refreshToFrame` with its three constants. -/
inductive refreshToFrame where
  | refreshToFrameZero
  | refreshToSameFrame
  | refreshToUserFrame
deriving DecidableEq, Repr

/-- The constant `runtimeprefix` of `refreshState`. -/
def runtimeprefix : List Nat := lit "runtime."

/-- The closure `failstate` of `refreshState`: the three variables are reset and the
error is written to the scrollback. -/
def failstate (s : Session) (pos : List Nat) (err : Error) : Option Session :=
  (fprint s.scrollbackEditor
    (lit "Error refreshing state " ++ pos ++ lit ": " ++ err ++ lit "\n")).map
    fun ed => { s with curThread := -1, curGid := -1, curFrame := 0, scrollbackEditor := ed }

/-- How the `switch toframe` of `refreshState` ends: with a call of `failstate`
followed by `return`, or with the frame and the location it has found. -/
inductive Resolved where
  | failed (pos : List Nat) (err : Error)
  | found (curFrame : Int) (loc : Option Location)
deriving DecidableEq, Repr

/-- The literal `&api.Location{File: t.File, Line: t.Line, PC: t.PC}`. -/
def threadLocation (t : Thread) : Location :=
  { File := t.File, Line := t.Line, PC := t.PC, Function := none }

/-- The case `refreshToFrameZero`. -/
def frameZero (state : DebuggerState) : Resolved :=
  Resolved.found 0
    (match state.SelectedGoroutine with
     | some g =>
       match state.CurrentThread with
       | some t => if g.ThreadID = t.ID then some (threadLocation t) else some g.CurrentLoc
       | none => some g.CurrentLoc
     | none =>
       match state.CurrentThread with
       | some t => some (threadLocation t)
       | none => none)

/-- The loop `for i := range frames` of the case `refreshToUserFrame`, at index `i`
with the frames from `i` on: the value of `curFrame` when the loop ends. -/
def userFrameLoop : List Stackframe → Int → Int → Option Int
  | [], _, curFrame => some curFrame
  | f :: fs, i, curFrame =>
    match f.Location.Function with
    | none => userFrameLoop fs (i + 1) curFrame
    | some fn =>
      if ¬ List.isPrefixOf runtimeprefix fn.Name then some i
      else if fn.Name.length > List.length runtimeprefix then
        match index fn.Name (List.length runtimeprefix) with
        | none => none
        | some ch =>
          if 65 ≤ ch ∧ ch ≤ 90 then some i else userFrameLoop fs (i + 1) curFrame
      else userFrameLoop fs (i + 1) curFrame

/-- A call of `client.Stacktrace(gid, depth, nil)`; a nil client panics. -/
def callStacktrace (client : Option Client) (gid depth : Int) :
    Option (Except Error (List Stackframe)) :=
  client.map fun c => c.Stacktrace gid depth

/-- The statement `switch toframe { ... }` of `refreshState`, labelled
`findCurrentLocation`, entered with the given `curGid` and `curFrame`. -/
def resolveFrame (client : Option Client) (toframe : refreshToFrame) (state : DebuggerState)
    (curGid curFrame : Int) : Option Resolved :=
  match toframe with
  | .refreshToFrameZero => some (frameZero state)
  | .refreshToSameFrame =>
    match callStacktrace client curGid (curFrame + 1) with
    | none => none
    | some (.error err) => some (Resolved.failed (lit "Stacktrace()") err)
    | some (.ok frames) =>
      let cf : Int := if curFrame ≥ frames.length then 0 else curFrame
      if cf < frames.length then
        match index frames cf with
        | none => none
        | some f => some (Resolved.found cf (some f.Location))
      else some (Resolved.found cf none)
  | .refreshToUserFrame =>
    match callStacktrace client curGid 20 with
    | none => none
    | some (.error err) => some (Resolved.failed (lit "Stacktrace()") err)
    | some (.ok frames) =>
      if frames.length = 0 then some (frameZero state)
      else
        match userFrameLoop frames 0 0 with
        | none => none
        | some cf =>
          match index frames cf with
          | none => none
          | some f => some (Resolved.found cf (some f.Location))

/-- The statement `switch clearKind { ... }` of `refreshState`: the panels whose
`asyncLoad.clear()` is called, in the order of the calls. -/
def clearCalls : clearKind → List Panel
  | .clearBreakpoint => [Panel.breakpoints]
  | .clearFrameSwitch => [Panel.locals, Panel.exprs]
  | .clearGoroutineSwitch => [Panel.stack, Panel.locals, Panel.exprs, Panel.regs]
  | .clearStop =>
    [Panel.locals, Panel.exprs, Panel.regs, Panel.goroutines, Panel.stack, Panel.threads,
      Panel.globals, Panel.breakpoints]

/-- The function `digits(n int) int`; the floating point part comes from `env`. -/
def digits (env : Env) (n : Int) : Int :=
  if n ≤ 0 then 1 else env.floorLog10 n + 1

/-- The call `fmt.Sprintf("%*d", width, n)`: padded with spaces on the left, on the
right for a negative width. -/
def fmtIntWidth (width n : Int) : List Nat :=
  if 0 ≤ width then List.replicate (width.toNat - (fmtInt n).length) 32 ++ fmtInt n
  else fmtInt n ++ List.replicate ((-width).toNat - (fmtInt n).length) 32

/-- The map `bpmap` after the loop over `breakpoints`. -/
def buildBpmap (file : List Nat) : List Breakpoint → (Int → Option Breakpoint) →
    (Int → Option Breakpoint)
  | [], bpmap => bpmap
  | bp :: bps, bpmap =>
    if bp.File = file then
      buildBpmap file bps (fun line => if line = bp.Line then some bp else bpmap line)
    else buildBpmap file bps bpmap

/-- The loop `for buf.Scan() { ... }` over the lines of the file. -/
def scanLines (bpmap : Int → Option Breakpoint) (locLine : Int) :
    List (List Nat) → Int → List listline → List listline
  | [], _, listing => listing
  | text :: rest, lineno, listing =>
    scanLines bpmap locLine rest (lineno + 1)
      (listing ++ [{ idx := [], lineno := lineno + 1, text := expandTabs text,
                     pc := decide (lineno + 1 = locLine), bp := bpmap (lineno + 1) }])

/-- The loop `for i := range listingPanel.listing` that sets the labels `idx`. -/
def setIdx (d : Int) : List listline → Int → List listline
  | [], _ => []
  | l :: ls, i => { l with idx := fmtIntWidth d (i + 1) } :: setIdx d ls (i + 1)

/-- The block `if loc != nil { ... }` of `refreshState`. -/
def buildListing (env : Env) (s : Session) (loc : Location) : Option Session :=
  match s.client with
  | none => none
  | some client =>
    match client.DisassemblePC s.curGid s.curFrame loc.PC
        (if s.disassemblyFlavour = 1 then AssemblyFlavour.GNUFlavour
         else AssemblyFlavour.IntelFlavour) with
    | .error err => failstate s (lit "DisassemblePC()") err
    | .ok text =>
      let s1 : Session := { s with listingPanel := { s.listingPanel with text := text } }
      match client.ListBreakpoints with
      | .error err => failstate s1 (lit "ListBreakpoints()") err
      | .ok breakpoints =>
        let s2 : Session := { s1 with listingPanel := { s1.listingPanel with file := loc.File } }
        match env.openFile loc.File with
        | .error err => failstate s2 (lit "Open()") err
        | .ok (lines, scanErr) =>
          let s3 : Session := { s2 with
            listingPanel := { s2.listingPanel with
              listing := scanLines (buildBpmap loc.File breakpoints (fun _ => none)) loc.Line
                lines 0 s2.listingPanel.listing } }
          match scanErr with
          | some err => failstate s3 (lit "(reading file)") err
          | none =>
            let d : Int := digits env s3.listingPanel.listing.length
            some { s3 with
              listingPanel := { s3.listingPanel with
                listing := setIdx (if d < 3 then 3 else d) s3.listingPanel.listing 0 } }

/-- The state that `refreshState` works with: the argument `state`, or the answer of
`client.GetState()` when the argument is nil; a nil client panics. -/
def fetchState (state : Option DebuggerState) (s : Session) :
    Option (Except Error DebuggerState) :=
  match state with
  | some st => some (.ok st)
  | none => s.client.map fun c => c.GetState

/-- The statements of `refreshState` between the state fetch and the
`switch toframe`: the listing is emptied and the thread and the goroutine are taken
from the state. -/
def selectThread (st : DebuggerState) (s : Session) : Session :=
  let s1 : Session := { s with
    nextInProgress := st.NextInProgress
    listingPanel := { s.listingPanel with
      listing := []
      text := []
      recenterListing := true
      recenterDisassembly := true } }
  let s2 : Session :=
    match st.CurrentThread with
    | some t => { s1 with curThread := t.ID }
    | none => { s1 with curThread := -1, curFrame := 0 }
  { s2 with
    curGid :=
      match st.SelectedGoroutine with
      | some g => if g.ID > 0 then g.ID else -1
      | none => -1 }

/-- The body of `refreshState` up to the deferred call. -/
def refreshBody (env : Env) (toframe : refreshToFrame) (kind : clearKind)
    (state : Option DebuggerState) (s : Session) : Option Session :=
  match fetchState state s with
  | none => none
  | some (.error err) => failstate s (lit "GetState()") err
  | some (.ok st) =>
    match resolveFrame (selectThread st s).client toframe st (selectThread st s).curGid
        (selectThread st s).curFrame with
    | none => none
    | some (Resolved.failed pos err) => failstate (selectThread st s) pos err
    | some (Resolved.found cf loc) =>
      let s4 : Session := { selectThread st s with
        curFrame := cf
        cleared := (selectThread st s).cleared ++ clearCalls kind }
      match loc with
      | none => some s4
      | some l => buildListing env s4 l

/-- The function `refreshState(toframe, clearKind, state)`: `none` is a panic; the
deferred `wnd.Changed()` runs on every return. -/
def refreshState (env : Env) (toframe : refreshToFrame) (kind : clearKind)
    (state : Option DebuggerState) (s : Session) : Option Session :=
  (refreshBody env toframe kind state s).map
    fun s1 => { s1 with wndChanged := s1.wndChanged + 1 }

/-- A frame is user-visible: it has a function whose name does not begin with
`runtime.`, or begins with `runtime.` followed at once by an upper-case letter. -/
def userVisible (f : Stackframe) : Prop :=
  ∃ fn, f.Location.Function = some fn ∧
    (¬ List.IsPrefix runtimeprefix fn.Name ∨
      ∃ ch rest, fn.Name = List.append runtimeprefix (ch :: rest) ∧ 65 ≤ ch ∧ ch ≤ 90)

/-- A stack frame at `main.go:1` in the function of the given name. -/
def frameNamed (name : String) : Stackframe :=
  { Location := { PC := 4096, File := lit "main.go", Line := 1,
                  Function := some { Name := lit name } } }

/-- A stack frame without function information. -/
def frameUnnamed : Stackframe :=
  { Location := { PC := 4096, File := lit "main.go", Line := 1, Function := none } }

/-- A stopped program: thread 1 at `main.go:1`, no goroutine selected. -/
def stoppedState : DebuggerState :=
  { CurrentThread := some { ID := 1, PC := 4096, File := lit "main.go", Line := 1 }
    SelectedGoroutine := none
    NextInProgress := false }

/-- A client of a stopped program whose stack is `frames`, without breakpoints. -/
def stackClient (frames : List Stackframe) : Client :=
  { GetState := .ok stoppedState
    Stacktrace := fun _ _ => .ok frames
    DisassemblePC := fun _ _ pc _ => .ok [{ PC := pc, Text := lit "ret" }]
    ListBreakpoints := .ok [] }

/-- A file system where every file holds the two lines `package main` and a tab
followed by `x`. -/
def sampleEnv : Env :=
  { openFile := fun _ => .ok ([lit "package main", lit "\tx"], none)
    floorLog10 := fun n => Nat.log 10 n.toNat }

/-- A connected, idle session of a stopped program whose stack is `frames`. -/
def stackSession (frames : List Stackframe) (frame : Int) : Session :=
  { initSession with
    client := some (stackClient frames)
    curThread := 1
    curFrame := frame }

/-! ## Tab expansion -/

theorem decodeRune_tab (s0 : Nat) (rest : List Nat)
    (h : (decodeRune (s0 :: rest)).1 = 9) : s0 = 9 := by
  simp only [decodeRune] at h
  repeat' split at h
  all_goals
    simp only [isCont, RuneError, Bool.and_eq_true, decide_eq_true_eq] at *
    omega

theorem tab_mem_of_mem_runesFrom (s : List Nat) :
    ∀ skip, 9 ∈ runesFrom skip s → 9 ∈ s := by
  induction s with
  | nil => intro skip h; simp [runesFrom] at h
  | cons b rest ih =>
    intro skip h
    cases skip with
    | succ k =>
      simp only [runesFrom] at h
      exact List.mem_cons_of_mem _ (ih k h)
    | zero =>
      simp only [runesFrom, List.mem_cons] at h
      rcases h with h | h
      · simp [decodeRune_tab b rest h.symm]
      · exact List.mem_cons_of_mem _ (ih _ h)

theorem hasTab_eq_false_of_not_mem (s : List Nat) (h : 9 ∉ s) : hasTab s = false := by
  simp only [hasTab, List.any_eq_false, beq_iff_eq]
  intro x hx hx9
  subst hx9
  exact h (tab_mem_of_mem_runesFrom s 0 hx)

theorem tab_not_mem_encodeRune (r : Nat) (h : r ≠ 9) : 9 ∉ encodeRune r := by
  simp only [encodeRune]
  split_ifs <;> simp <;> omega

theorem tab_not_mem_writeSpaces (d : Nat) : ∀ buf : List Nat, 9 ∉ buf → 9 ∉ writeSpaces d buf := by
  induction d with
  | zero => intro buf h; simpa [writeSpaces] using h
  | succ d ih =>
    intro buf h
    simp only [writeSpaces]
    apply ih
    simp [writeRune, encodeRune, h]

theorem tab_not_mem_expandLoop (cs : List Nat) :
    ∀ (count : Nat) (buf : List Nat), 9 ∉ buf → 9 ∉ expandLoop cs count buf := by
  induction cs with
  | nil => intro count buf h; simpa [expandLoop] using h
  | cons c cs ih =>
    intro count buf h
    simp only [expandLoop]
    split_ifs with h1 h2
    · exact ih _ _ (tab_not_mem_writeSpaces _ _ h)
    · apply ih
      simp [writeRune, encodeRune, h]
    · apply ih
      simp only [writeRune, List.mem_append, not_or]
      exact ⟨h, tab_not_mem_encodeRune c h1⟩

theorem tab_not_mem_expandTabs_of_hasTab (s : List Nat) (h : hasTab s = true) :
    9 ∉ expandTabs s := by
  simp only [expandTabs, h, if_true]
  exact tab_not_mem_expandLoop _ _ _ (by simp)

theorem hasTab_expandTabs (s : List Nat) : hasTab (expandTabs s) = false := by
  by_cases h : hasTab s = true
  · exact hasTab_eq_false_of_not_mem _ (tab_not_mem_expandTabs_of_hasTab s h)
  · simp only [Bool.not_eq_true] at h
    simp [expandTabs, h]

/-- C2: expanding twice equals expanding once, and a string without a tab, be it
counted in bytes or in decoded characters, is returned unchanged. -/
theorem expandTabs_idempotent :
    (∀ s : List Nat, expandTabs (expandTabs s) = expandTabs s) ∧
    (∀ s : List Nat, 9 ∉ s → expandTabs s = s) ∧
    (∀ s : List Nat, 9 ∉ runes s → expandTabs s = s) := by
  refine ⟨fun s => ?_, fun s h => ?_, fun s h => ?_⟩
  · have h := hasTab_expandTabs s
    generalize expandTabs s = t at h
    simp [expandTabs, h]
  · simp [expandTabs, hasTab_eq_false_of_not_mem s h]
  · have h2 : hasTab s = false := by
      simp only [hasTab, List.any_eq_false, beq_iff_eq]
      intro x hx hx9
      exact h (hx9 ▸ hx)
    simp [expandTabs, h2]

theorem expandTabs_idempotent_witness :
    9 ∉ lit "ab\n" ∧ expandTabs (lit "ab\n") = lit "ab\n" ∧
      9 ∉ runes (lit "ab\n") ∧ expandTabs (expandTabs (lit "a\tb")) = expandTabs (lit "a\tb") :=
  ⟨by decide, expandTabs_idempotent.2.1 (lit "ab\n") (by decide), by decide,
    expandTabs_idempotent.1 (lit "a\tb")⟩

/-! ## UTF-8 round trip -/

theorem decodeRune_valid (s : List Nat) : validRune (decodeRune s).1 := by
  unfold validRune
  match s with
  | [] => simp [decodeRune, RuneError]
  | s0 :: rest =>
    simp only [decodeRune]
    repeat' split
    all_goals
      simp only [isCont, RuneError, Bool.and_eq_true, decide_eq_true_eq] at *
      omega

theorem decodeRune_encodeRune (r : Nat) (rest : List Nat) (h : validRune r) :
    decodeRune (encodeRune r ++ rest) = (r, (encodeRune r).length) := by
  unfold validRune at h
  simp only [encodeRune]
  split_ifs with h1 h2 h3 h4
  · simp only [List.singleton_append, decodeRune, List.length_singleton]
    rw [if_pos (by omega)]
  · simp only [List.cons_append, List.nil_append, decodeRune, isCont, List.length_cons,
      List.length_nil]
    rw [if_neg (by omega), if_neg (by omega), if_pos (by omega)]
    simp only [Bool.and_eq_true, decide_eq_true_eq]
    rw [if_pos (by omega)]
    congr 1
    omega
  · omega
  · simp only [List.cons_append, List.nil_append, decodeRune, isCont, List.length_cons,
      List.length_nil]
    rw [if_neg (by omega), if_neg (by omega), if_neg (by omega), if_pos (by omega)]
    simp only [Bool.and_eq_true, decide_eq_true_eq]
    rw [if_pos (by split_ifs <;> omega)]
    congr 1
    omega
  · simp only [List.cons_append, List.nil_append, decodeRune, isCont, List.length_cons,
      List.length_nil]
    rw [if_neg (by omega), if_neg (by omega), if_neg (by omega), if_neg (by omega),
      if_pos (by omega)]
    simp only [Bool.and_eq_true, decide_eq_true_eq]
    rw [if_pos (by split_ifs <;> omega)]
    congr 1
    omega

theorem runesFrom_length_append (xs rest : List Nat) :
    runesFrom xs.length (xs ++ rest) = runesFrom 0 rest := by
  induction xs with
  | nil => simp
  | cons x xs ih => simpa [runesFrom] using ih

theorem encodeRune_ne_nil (r : Nat) : ∃ b bs, encodeRune r = b :: bs := by
  simp only [encodeRune]
  split_ifs <;> exact ⟨_, _, rfl⟩

theorem runes_encodeRune_append (r : Nat) (rest : List Nat) (h : validRune r) :
    runes (encodeRune r ++ rest) = r :: runes rest := by
  have hd := decodeRune_encodeRune r rest h
  obtain ⟨b, bs, hb⟩ := encodeRune_ne_nil r
  rw [hb] at hd ⊢
  simp only [runes, List.cons_append] at hd ⊢
  simp only [runesFrom, hd, List.length_cons, Nat.add_sub_cancel]
  rw [runesFrom_length_append]

theorem runes_stringOfRunes (rs : List Nat) (h : ∀ r ∈ rs, validRune r) :
    runes (stringOfRunes rs) = rs := by
  induction rs with
  | nil => rfl
  | cons r rs ih =>
    simp only [stringOfRunes]
    rw [runes_encodeRune_append r _ (h r (List.mem_cons_self _ _)),
      ih (fun x hx => h x (List.mem_cons_of_mem _ hx))]

theorem runesFrom_valid (s : List Nat) : ∀ skip, ∀ r ∈ runesFrom skip s, validRune r := by
  induction s with
  | nil => intro skip r hr; simp [runesFrom] at hr
  | cons b rest ih =>
    intro skip r hr
    cases skip with
    | succ k => exact ih k r (by simpa [runesFrom] using hr)
    | zero =>
      simp only [runesFrom, List.mem_cons] at hr
      rcases hr with hr | hr
      · rw [hr]; exact decodeRune_valid _
      · exact ih _ r hr

theorem runesFrom_length_le (s : List Nat) : ∀ skip, (runesFrom skip s).length ≤ s.length := by
  induction s with
  | nil => intro skip; simp [runesFrom]
  | cons b rest ih =>
    intro skip
    cases skip with
    | succ k => simp only [runesFrom, List.length_cons]; have := ih k; omega
    | zero => simp only [runesFrom, List.length_cons]; have := ih ((decodeRune (b :: rest)).2 - 1); omega

theorem runes_length_le (s : List Nat) : (runes s).length ≤ s.length :=
  runesFrom_length_le s 0

/-! ## `expandTabs` on code points -/

theorem stringOfRunes_append (xs ys : List Nat) :
    stringOfRunes (xs ++ ys) = stringOfRunes xs ++ stringOfRunes ys := by
  induction xs with
  | nil => rfl
  | cons x xs ih => simp [stringOfRunes, ih]

theorem writeSpaces_eq (d : Nat) : ∀ buf, writeSpaces d buf = buf ++ List.replicate d 32 := by
  induction d with
  | zero => intro buf; simp [writeSpaces]
  | succ d ih =>
    intro buf
    simp only [writeSpaces, ih, writeRune, encodeRune]
    simp [List.replicate_succ]

theorem stringOfRunes_replicate_space (d : Nat) :
    stringOfRunes (List.replicate d 32) = List.replicate d 32 := by
  induction d with
  | zero => rfl
  | succ d ih => simp [List.replicate_succ, stringOfRunes, ih, encodeRune]

theorem expandLoop_eq (cs : List Nat) : ∀ (count : Nat) (buf : List Nat),
    expandLoop cs count buf = buf ++ stringOfRunes (expandRunes cs count) := by
  induction cs with
  | nil => intro count buf; simp [expandLoop, expandRunes, stringOfRunes]
  | cons c cs ih =>
    intro count buf
    simp only [expandLoop, expandRunes]
    split_ifs with h1 h2
    · rw [ih, writeSpaces_eq, stringOfRunes_append, stringOfRunes_replicate_space]
      simp
    · rw [ih]; simp [writeRune, stringOfRunes]
    · rw [ih]; simp [writeRune, stringOfRunes]

theorem expandRunes_valid (cs : List Nat) : ∀ count, (∀ r ∈ cs, validRune r) →
    ∀ r ∈ expandRunes cs count, validRune r := by
  induction cs with
  | nil => intro count _ r hr; simp [expandRunes] at hr
  | cons c cs ih =>
    intro count h r hr
    have hc := h c (List.mem_cons_self _ _)
    have hcs : ∀ r ∈ cs, validRune r := fun x hx => h x (List.mem_cons_of_mem _ hx)
    simp only [expandRunes] at hr
    split_ifs at hr with h1 h2
    · simp only [List.mem_append, List.mem_replicate] at hr
      rcases hr with hr | hr
      · rw [hr.2]; left; norm_num
      · exact ih _ hcs r hr
    · simp only [List.mem_cons] at hr
      rcases hr with hr | hr
      · rw [hr]; left; norm_num
      · exact ih _ hcs r hr
    · simp only [List.mem_cons] at hr
      rcases hr with hr | hr
      · rw [hr]; exact hc
      · exact ih _ hcs r hr

theorem expandRunes_of_no_tab (cs : List Nat) : ∀ count, 9 ∉ cs → expandRunes cs count = cs := by
  induction cs with
  | nil => intro count _; rfl
  | cons c cs ih =>
    intro count h
    simp only [List.mem_cons, not_or] at h
    simp only [expandRunes]
    rw [if_neg (fun hc => h.1 hc.symm)]
    split_ifs with h2
    · rw [ih _ h.2, h2]
    · rw [ih _ h.2]

theorem expandRunes_length_le (cs : List Nat) : ∀ count,
    (expandRunes cs count).length ≤ 8 * cs.length := by
  induction cs with
  | nil => intro count; simp [expandRunes]
  | cons c cs ih =>
    intro count
    simp only [expandRunes]
    split_ifs with h1 h2
    · simp only [List.length_append, List.length_replicate, List.length_cons]
      have := ih 0
      omega
    · simp only [List.length_cons]; have := ih 0; omega
    · simp only [List.length_cons]; have := ih (count + 1); omega

/-- The code points of the expanded text are the expansion of the code points. -/
theorem runes_expandTabs (s : List Nat) : runes (expandTabs s) = expandRunes (runes s) 0 := by
  by_cases h : hasTab s = true
  · simp only [expandTabs, h, if_true, expandLoop_eq, List.nil_append]
    exact runes_stringOfRunes _ (expandRunes_valid _ _ (runesFrom_valid s 0))
  · simp only [Bool.not_eq_true] at h
    simp only [expandTabs, h]
    rw [expandRunes_of_no_tab]
    · simp
    · intro h9
      simp only [hasTab, List.any_eq_false, beq_iff_eq] at h
      exact h 9 h9 rfl

theorem runes_expandTabs_length_le (b : List Nat) :
    (runes (expandTabs b)).length ≤ 8 * b.length := by
  rw [runes_expandTabs]
  have h1 := expandRunes_length_le (runes b) 0
  have h2 := runes_length_le b
  omega

/-! ## `editorWriter.Write` -/

theorem index_isSome {α : Type} (xs : List α) (i : Int) (h0 : 0 ≤ i) (h1 : i < xs.length) :
    ∃ x, index xs i = some x := by
  have h2 : i.toNat < xs.length := by omega
  exact ⟨xs[i.toNat], by simp [index, h0, List.getElem?_eq_getElem h2]⟩

theorem scanLoop_isSome (buf : List Nat) (old : Int) (h0 : -1 ≤ old) :
    ∀ k : Nat, old + k ≤ (buf.length : Int) - 2 →
      ∃ c, scanLoop buf old k = some c ∧ old ≤ c ∧ c ≤ old + k := by
  intro k
  induction k with
  | zero => intro _; exact ⟨old, rfl, le_refl _, by simp⟩
  | succ k ih =>
    intro hk
    obtain ⟨x, hx⟩ := index_isSome buf (old + (k + 1 : Nat)) (by omega) (by omega)
    simp only [scanLoop, hx]
    split_ifs with h10
    · exact ⟨_, rfl, by omega, le_refl _⟩
    · obtain ⟨c, hc, h1, h2⟩ := ih (by push_cast at hk ⊢; omega)
      exact ⟨c, hc, h1, by push_cast at h2 ⊢; omega⟩

theorem scanBack_isSome (buf : List Nat) (old : Int) (h0 : -1 ≤ old) :
    ∃ c, scanBack buf old = some c ∧ c ≤ (buf.length : Int) - 2 ∧
      (old ≤ c ∨ c = (buf.length : Int) - 2) := by
  simp only [scanBack]
  split_ifs with h
  · obtain ⟨c, hc, h1, h2⟩ := scanLoop_isSome buf old h0
      ((buf.length : Int) - 2 - old).toNat (by omega)
    exact ⟨c, hc, by omega, Or.inl h1⟩
  · exact ⟨_, rfl, le_refl _, Or.inr rfl⟩

theorem appendTruncate_length (ed : TextEditor) (b : List Nat) :
    (appendTruncate ed b).1.length =
      if scrollbackHighMark < ed.Buffer.length + (runes (expandTabs b)).length then
        ed.Buffer.length + (runes (expandTabs b)).length - scrollbackLowMark
      else ed.Buffer.length + (runes (expandTabs b)).length := by
  simp only [appendTruncate, List.length_append, gt_iff_lt]
  split_ifs <;> simp

theorem appendTruncate_cursor (ed : TextEditor) (b : List Nat) (m : Int) (hm : m ≤ 0)
    (h : m ≤ ed.Cursor) : m ≤ (appendTruncate ed b).2 := by
  simp only [appendTruncate, List.length_append, gt_iff_lt, scrollbackHighMark,
    scrollbackLowMark]
  split_ifs with h1
  · simp only; omega
  · exact h

theorem Write_eq_some (ed : TextEditor) (b : List Nat) (ed1 : TextEditor) (n : Nat)
    (h : Write ed b = some (ed1, n)) :
    ed1.Buffer = (appendTruncate ed b).1 ∧ n = b.length := by
  simp only [Write] at h
  split at h
  · exact absurd h (by simp)
  · simp only [Option.some.injEq, Prod.mk.injEq] at h
    exact ⟨by rw [← h.1], h.2.symm⟩

theorem Write_isSome (ed : TextEditor) (b : List Nat) (h : -1 ≤ ed.Cursor) :
    ∃ ed1, Write ed b = some (ed1, b.length) := by
  obtain ⟨c, hc, _⟩ := scanBack_isSome (appendTruncate ed b).1 (appendTruncate ed b).2
    (appendTruncate_cursor ed b (-1) (by decide) h)
  simp only [Write, hc]
  exact ⟨_, rfl⟩

/-- Once the buffer holds two characters and the cursor is not negative, a `Write`
returns, reads inside the buffer only, and leaves the cursor inside the buffer. -/
theorem Write_safe (ed : TextEditor) (b : List Nat) (h0 : 0 ≤ ed.Cursor)
    (h2 : 2 ≤ (appendTruncate ed b).1.length) :
    ∃ ed1, Write ed b = some (ed1, b.length) ∧ 0 ≤ ed1.Cursor ∧
      ed1.Cursor ≤ ed1.Buffer.length ∧ ed1.Buffer = (appendTruncate ed b).1 := by
  have hold := appendTruncate_cursor ed b 0 (le_refl _) h0
  obtain ⟨c, hc, h3, h4⟩ := scanBack_isSome (appendTruncate ed b).1 (appendTruncate ed b).2
    (by omega)
  simp only [Write, hc]
  refine ⟨_, rfl, ?_, ?_, rfl⟩
  · simp only
    split_ifs <;> omega
  · simp only
    split_ifs <;> omega

theorem appendTruncate_length_ge (ed : TextEditor) (b : List Nat) (h : 2 ≤ ed.Buffer.length) :
    2 ≤ (appendTruncate ed b).1.length := by
  rw [appendTruncate_length]
  simp only [scrollbackHighMark, scrollbackLowMark]
  split_ifs <;> omega

/-- From an editor whose buffer holds two characters and whose cursor is inside the
buffer, every sequence of `Write` calls returns and keeps the cursor inside. -/
theorem writeAll_safe (bs : List (List Nat)) : ∀ ed : TextEditor,
    0 ≤ ed.Cursor → ed.Cursor ≤ ed.Buffer.length → 2 ≤ ed.Buffer.length →
    ∃ ed1, writeAll ed bs = some ed1 ∧ 0 ≤ ed1.Cursor ∧ ed1.Cursor ≤ ed1.Buffer.length := by
  induction bs with
  | nil =>
    intro ed h0 h1 _
    exact ⟨ed, rfl, h0, h1⟩
  | cons b bs ih =>
    intro ed h0 _ h2
    obtain ⟨ed1, hw, h3, h4, h5⟩ := Write_safe ed b h0 (appendTruncate_length_ge ed b h2)
    simp only [writeAll, hw]
    exact ih ed1 h3 h4 (by rw [h5]; exact appendTruncate_length_ge ed b h2)

theorem runes_expandTabs_length_le_of_no_tab (b : List Nat) (h : 9 ∉ b) :
    (runes (expandTabs b)).length ≤ b.length := by
  rw [runes_expandTabs,
    expandRunes_of_no_tab (runes b) 0 (fun h9 => h (tab_mem_of_mem_runesFrom b 0 h9))]
  exact runes_length_le b

theorem runes_of_ascii (s : List Nat) (h : ∀ b ∈ s, b < 128) : runes s = s := by
  induction s with
  | nil => rfl
  | cons b rest ih =>
    have hb := h b (List.mem_cons_self _ _)
    have ih1 := ih (fun x hx => h x (List.mem_cons_of_mem _ hx))
    simp only [runes] at ih1 ⊢
    simp only [runesFrom, decodeRune, if_pos hb, Nat.sub_self, ih1]

theorem expandRunes_replicate_tab (n : Nat) :
    (expandRunes (List.replicate n 9) 0).length = 8 * n := by
  induction n with
  | zero => rfl
  | succ n ih =>
    rw [List.replicate_succ]
    simp only [expandRunes, if_true, List.length_append, List.length_replicate, ih]
    omega

/-- C1 (as amended): a `Write` of `b` appends the `r` characters of the tab-expanded
text, `r ≤ 8 * len(b)` and `r ≤ len(b)` without tabs; the length becomes `L + r`, less
`scrollbackLowMark` when `L + r` exceeds `scrollbackHighMark`; from a buffer of at most
`scrollbackHighMark` characters the result has at most `scrollbackHighMark + r`.  The
call returns whenever the cursor is at least `-1`. -/
theorem Write_length_bound (ed : TextEditor) (b : List Nat) :
    (runes (expandTabs b)).length ≤ 8 * b.length ∧
    (9 ∉ b → (runes (expandTabs b)).length ≤ b.length) ∧
    (-1 ≤ ed.Cursor → ∃ ed1, Write ed b = some (ed1, b.length)) ∧
    (∀ ed1 n, Write ed b = some (ed1, n) →
      ed1.Buffer.length =
        (if scrollbackHighMark < ed.Buffer.length + (runes (expandTabs b)).length then
          ed.Buffer.length + (runes (expandTabs b)).length - scrollbackLowMark
        else ed.Buffer.length + (runes (expandTabs b)).length) ∧
      (ed.Buffer.length ≤ scrollbackHighMark →
        ed1.Buffer.length ≤ scrollbackHighMark + (runes (expandTabs b)).length)) := by
  refine ⟨runes_expandTabs_length_le b, runes_expandTabs_length_le_of_no_tab b,
    Write_isSome ed b, fun ed1 n h => ?_⟩
  have hlen := appendTruncate_length ed b
  rw [← (Write_eq_some ed b ed1 n h).1] at hlen
  refine ⟨hlen, fun hL => ?_⟩
  rw [hlen]
  simp only [scrollbackHighMark, scrollbackLowMark] at hL ⊢
  split_ifs <;> omega

theorem Write_length_bound_witness :
    ∃ ed1, Write scrollbackInit (lit "ab\n") = some (ed1, 3) ∧
      (runes (expandTabs (lit "ab\n"))).length ≤ 3 ∧
      ed1.Buffer.length ≤ scrollbackHighMark + (runes (expandTabs (lit "ab\n"))).length := by
  obtain ⟨_, h2, h3, h4⟩ := Write_length_bound scrollbackInit (lit "ab\n")
  obtain ⟨ed1, h⟩ := h3 (by decide)
  exact ⟨ed1, h, h2 (by decide), (h4 ed1 _ h).2 (by decide)⟩

/-- C1 (as stated) fails: one `Write` of 2048 tab bytes on the empty scrollback editor
leaves 12288 characters, more than `scrollbackHighMark + 2048`. -/
theorem Write_exceeds_high_mark :
    ∃ ed1, Write scrollbackInit (List.replicate 2048 9) = some (ed1, 2048) ∧
      ed1.Buffer.length = 12288 ∧
      ¬ ed1.Buffer.length ≤ scrollbackHighMark + (List.replicate 2048 9).length := by
  obtain ⟨ed1, h⟩ := Write_isSome scrollbackInit (List.replicate 2048 9) (by decide)
  have hr : (runes (expandTabs (List.replicate 2048 9))).length = 16384 := by
    rw [runes_expandTabs, runes_of_ascii _ (by
      intro x hx; rw [List.mem_replicate] at hx; omega), expandRunes_replicate_tab]
  have hlen := appendTruncate_length scrollbackInit (List.replicate 2048 9)
  rw [← (Write_eq_some _ _ _ _ h).1, hr] at hlen
  simp only [scrollbackInit, newEditor, List.length_nil, scrollbackHighMark,
    scrollbackLowMark] at hlen
  norm_num at hlen
  rw [List.length_replicate] at h ⊢
  refine ⟨ed1, h, hlen, ?_⟩
  rw [hlen]
  decide

/-- A second failure of C1 as stated, without tabs: after one `Write` of 20000 bytes
`a`, a `Write` of a single byte leaves 11809 characters. -/
theorem Write_exceeds_high_mark_twice :
    ∃ ed1 ed2, Write scrollbackInit (List.replicate 20000 97) = some (ed1, 20000) ∧
      Write ed1 [97] = some (ed2, 1) ∧ ed2.Buffer.length = 11809 := by
  have hascii : ∀ x ∈ List.replicate 20000 97, x < 128 := by
    intro x hx; rw [List.mem_replicate] at hx; omega
  have hr : (runes (expandTabs (List.replicate 20000 97))).length = 20000 := by
    rw [runes_expandTabs, runes_of_ascii _ hascii, expandRunes_of_no_tab _ _ (by
      intro h9; rw [List.mem_replicate] at h9; omega), List.length_replicate]
  have hlen : (appendTruncate scrollbackInit (List.replicate 20000 97)).1.length = 15904 := by
    rw [appendTruncate_length, hr]
    decide
  obtain ⟨ed1, h1, hc1, _, hb1⟩ := Write_safe scrollbackInit (List.replicate 20000 97)
    (by decide) (by rw [hlen]; decide)
  obtain ⟨ed2, h2⟩ := Write_isSome ed1 [97] (by omega)
  have hlen2 := appendTruncate_length ed1 [97]
  rw [← (Write_eq_some _ _ _ _ h2).1, hb1, hlen] at hlen2
  rw [List.length_replicate] at h1
  refine ⟨ed1, ed2, h1, h2, ?_⟩
  rw [hlen2]
  decide

/-! ## The prompt -/

theorem prompt_append_ne_dlv (thread gid frame : Int) (h : 0 ≤ thread) :
    prompt thread gid frame ++ lit ">" ≠ lit "dlv>" := by
  have h1 : lit "thread " = 116 :: [104, 114, 101, 97, 100, 32] := by decide
  have h2 : lit "goroutine " = 103 :: [111, 114, 111, 117, 116, 105, 110, 101, 32] := by decide
  have h3 : lit "dlv>" = 100 :: [108, 118, 62] := by decide
  simp only [prompt, if_neg (not_lt.mpr h)]
  split_ifs
  · rw [h1, h3]; simp
  · rw [h2, h3]; simp

/-- C3 (as amended): `currentPrompt` returns `running` while a command runs;
otherwise, without a client, `failed` when the connection has failed and `connecting`
when it has not; otherwise `dlv>` when no thread is selected, and with a thread
selected `thread <id> frame <n>>` when no goroutine is selected and
`goroutine <id> frame <n>>` when one is.  Hence the result is `dlv>` exactly when no
command runs, a client exists and no thread is selected; and with no command running,
a client and a selected thread, goroutine 7 and frame 2 give `goroutine 7 frame 2>`. -/
theorem currentPrompt_dlv (s : Session) :
    (s.running = true → currentPrompt s = lit "running") ∧
    (s.running = false → s.client.isSome = false → s.connectionFailed = true →
      currentPrompt s = lit "failed") ∧
    (s.running = false → s.client.isSome = false → s.connectionFailed = false →
      currentPrompt s = lit "connecting") ∧
    (s.running = false → s.client.isSome = true → s.curThread < 0 →
      currentPrompt s = lit "dlv>") ∧
    (s.running = false → s.client.isSome = true → 0 ≤ s.curThread → s.curGid < 0 →
      currentPrompt s =
        lit "thread " ++ fmtInt s.curThread ++ lit " frame " ++ fmtInt s.curFrame ++ lit ">") ∧
    (s.running = false → s.client.isSome = true → 0 ≤ s.curThread → 0 ≤ s.curGid →
      currentPrompt s =
        lit "goroutine " ++ fmtInt s.curGid ++ lit " frame " ++ fmtInt s.curFrame ++ lit ">") ∧
    (currentPrompt s = lit "dlv>" ↔
      (s.running = false ∧ s.client.isSome = true ∧ s.curThread < 0)) ∧
    (s.running = false → s.client.isSome = true → 0 ≤ s.curThread → s.curGid = 7 →
      s.curFrame = 2 → currentPrompt s = lit "goroutine 7 frame 2>") := by
  have e1 : lit "running" ≠ lit "dlv>" := by decide
  have e2 : lit "failed" ≠ lit "dlv>" := by decide
  have e3 : lit "connecting" ≠ lit "dlv>" := by decide
  have hgo : s.running = false → s.client.isSome = true → 0 ≤ s.curThread → 0 ≤ s.curGid →
      currentPrompt s =
        lit "goroutine " ++ fmtInt s.curGid ++ lit " frame " ++ fmtInt s.curFrame ++ lit ">" := by
    intro hr hc ht hg
    cases hcl : s.client with
    | none => rw [hcl] at hc; simp at hc
    | some c =>
      simp only [currentPrompt, prompt, hr, hcl, Option.isNone_some, if_neg (not_lt.mpr ht),
        if_neg (not_lt.mpr hg), Bool.false_eq_true, if_false]
  refine ⟨?_, ?_, ?_, ?_, ?_, hgo, ?_, ?_⟩
  · intro hr
    simp [currentPrompt, hr]
  · intro hr hc hf
    cases hcl : s.client with
    | none => simp [currentPrompt, hr, hcl, hf]
    | some c => rw [hcl] at hc; simp at hc
  · intro hr hc hf
    cases hcl : s.client with
    | none => simp [currentPrompt, hr, hcl, hf]
    | some c => rw [hcl] at hc; simp at hc
  · intro hr hc ht
    cases hcl : s.client with
    | none => rw [hcl] at hc; simp at hc
    | some c => simp [currentPrompt, hr, hcl, ht]
  · intro hr hc ht hg
    cases hcl : s.client with
    | none => rw [hcl] at hc; simp at hc
    | some c =>
      simp only [currentPrompt, prompt, hr, hcl, Option.isNone_some, if_neg (not_lt.mpr ht),
        if_pos hg, Bool.false_eq_true, if_false]
  · cases hr : s.running
    · cases hc : s.client with
      | none =>
        by_cases hf : s.connectionFailed = true
        · simp [currentPrompt, hr, hc, hf, e2]
        · simp [currentPrompt, hr, hc, hf, e3]
      | some c =>
        by_cases ht : s.curThread < 0
        · simp [currentPrompt, hr, hc, ht]
        · have e4 := prompt_append_ne_dlv s.curThread s.curGid s.curFrame (not_lt.mp ht)
          simp [currentPrompt, hr, hc, ht, e4]
    · simp [currentPrompt, hr, e1]
  · intro hr hc ht hg hf
    rw [hgo hr hc ht (by omega), hg, hf]
    decide

theorem currentPrompt_dlv_witness :
    currentPrompt (idleSession 3 7 2) = lit "goroutine 7 frame 2>" ∧
    currentPrompt (idleSession 3 (-1) 2) = lit "thread 3 frame 2>" ∧
    currentPrompt (idleSession (-1) 7 2) = lit "dlv>" ∧
    currentPrompt loadingSession = lit "running" ∧
    currentPrompt initSession = lit "connecting" ∧
    currentPrompt failedSession = lit "failed" :=
  ⟨(currentPrompt_dlv (idleSession 3 7 2)).2.2.2.2.2.2.2 rfl rfl (by decide) rfl rfl,
    ((currentPrompt_dlv (idleSession 3 (-1) 2)).2.2.2.2.1 rfl rfl (by decide)
      (by decide)).trans (by decide),
    (currentPrompt_dlv (idleSession (-1) 7 2)).2.2.2.1 rfl rfl (by decide),
    (currentPrompt_dlv loadingSession).1 rfl,
    (currentPrompt_dlv initSession).2.2.1 rfl rfl rfl,
    (currentPrompt_dlv failedSession).2.1 rfl rfl rfl⟩

/-- C3 (as stated) fails: while a command runs the prompt is `running` although no
thread is selected, and with no thread selected goroutine 7 and frame 2 give `dlv>`. -/
theorem currentPrompt_not_dlv :
    loadingSession.curThread < 0 ∧
    currentPrompt loadingSession = lit "running" ∧
    currentPrompt loadingSession ≠ lit "dlv>" ∧
    currentPrompt (idleSession (-1) 7 2) = lit "dlv>" ∧
    currentPrompt (idleSession (-1) 7 2) ≠ lit "goroutine 7 frame 2>" := by
  refine ⟨by decide, by decide, by decide, by decide, by decide⟩

/-! ## History recall and command submission -/

theorem showHistoryStep_spec (s : Session) (shown : Int)
    (hshown : shown = (if s.historyShown < 0 then (s.cmdhistory.length : Int)
      else if s.historyShown > s.cmdhistory.length then (s.cmdhistory.length : Int)
      else s.historyShown)) :
    ∃ s1, showHistoryStep s = some s1 ∧ s1.historyShown = shown ∧
      s1.cmdhistory = s.cmdhistory ∧ historyLoaded s1 := by
  have hrange : 0 ≤ shown ∧ shown ≤ s.cmdhistory.length := by
    rw [hshown]; split_ifs <;> omega
  simp only [showHistoryStep, ← hshown]
  by_cases hend : shown = s.cmdhistory.length
  · rw [if_neg (by simpa using hend)]
    refine ⟨_, rfl, rfl, rfl, ?_⟩
    exact ⟨fun _ => ⟨rfl, rfl⟩, fun h => absurd hend h⟩
  · rw [if_pos hend]
    obtain ⟨entry, hentry⟩ := index_isSome s.cmdhistory shown hrange.1 (by omega)
    simp only [hentry]
    refine ⟨_, rfl, rfl, rfl, ?_⟩
    exact ⟨fun h => absurd h hend, fun _ => ⟨entry, hentry, rfl, rfl⟩⟩

/-- C4 (as amended): with the recall cursor `c` in `[0, n]`, the up arrow yields
`c - 1`, or `n` (the blank line) when `c = 0`; the down arrow yields `min (c + 1) n`;
the command line is blank when the new cursor is `n` and otherwise holds the entry
under the cursor with the edit position at its end. -/
theorem recallKeys_step (completeAny : Session → Session) (s : Session)
    (hact : s.commandLineEditor.Active = true)
    (h0 : 0 ≤ s.historyShown) (hn : s.historyShown ≤ s.cmdhistory.length) :
    (∃ s1, recallKeys completeAny [upArrow] s = some s1 ∧
      s1.historyShown = (if s.historyShown = 0 then (s.cmdhistory.length : Int)
        else s.historyShown - 1) ∧
      s1.cmdhistory = s.cmdhistory ∧ historyLoaded s1) ∧
    (∃ s2, recallKeys completeAny [downArrow] s = some s2 ∧
      s2.historyShown = min (s.historyShown + 1) s.cmdhistory.length ∧
      s2.cmdhistory = s.cmdhistory ∧ historyLoaded s2) := by
  constructor
  · simp only [recallKeys, hact, if_true, keyLoop, upArrow, true_and, reduceCtorEq, and_false,
      if_false]
    obtain ⟨s1, h1, h2, h3, h4⟩ := showHistoryStep_spec
      { s with historyShown := s.historyShown - 1 }
      (if s.historyShown = 0 then (s.cmdhistory.length : Int) else s.historyShown - 1)
      (by simp only; split_ifs <;> omega)
    exact ⟨s1, h1, h2, h3, h4⟩
  · simp only [recallKeys, hact, if_true, keyLoop, downArrow, true_and, reduceCtorEq,
      and_false, if_false]
    obtain ⟨s2, h1, h2, h3, h4⟩ := showHistoryStep_spec
      { s with historyShown := s.historyShown + 1 }
      (min (s.historyShown + 1) s.cmdhistory.length)
      (by simp only; split_ifs <;> omega)
    exact ⟨s2, h1, h2, h3, h4⟩

theorem recallKeys_step_witness :
    ∃ s1, recallKeys id [upArrow] (historySession 2 []) = some s1 ∧
      s1.historyShown = 1 ∧ historyLoaded s1 := by
  obtain ⟨s1, h1, h2, _, h4⟩ :=
    (recallKeys_step id (historySession 2 []) rfl (by decide) (by decide)).1
  exact ⟨s1, h1, h2.trans (by decide), h4⟩

/-- C4 (as stated) fails: with the history `continue`, `next` and the recall cursor at
0, the up arrow moves the cursor to 2 and blanks the command line; `max (0 - 1) 0` and
the entry `continue` were claimed. -/
theorem recallKeys_up_at_zero :
    ∃ s1, recallKeys id [upArrow] (historySession 0 (runes (lit "continue"))) = some s1 ∧
      s1.historyShown = 2 ∧ s1.historyShown ≠ max (0 - 1) 0 ∧
      s1.commandLineEditor.Buffer = [] ∧
      s1.commandLineEditor.Buffer ≠ runes (lit "continue") :=
  ⟨_, rfl, by decide, by decide, by decide, by decide⟩

theorem fprint_isSome (ed : TextEditor) (text : List Nat) (h : -1 ≤ ed.Cursor) :
    ∃ ed1, fprint ed text = some ed1 := by
  obtain ⟨ed1, h1⟩ := Write_isSome ed text h
  exact ⟨ed1, by simp [fprint, h1]⟩

theorem index_last (xs : List (List Nat)) :
    index xs ((xs.length : Int) - 1) = xs.getLast? := by
  cases xs with
  | nil => rfl
  | cons x xs =>
    have h1 : (0 : Int) ≤ ((x :: xs).length : Int) - 1 := by simp
    have h2 : (((x :: xs).length : Int) - 1).toNat = (x :: xs).length - 1 := by simp
    rw [index, if_pos h1, h2, List.getLast?_eq_getElem?]

/-- A submission with a non-empty command line or a non-empty history: a non-empty
command is appended to the history and echoed; an empty one leaves the history as it
is and echoes its last entry; the recall cursor becomes the length of the history. -/
theorem commitCommand_history (p : List Nat) (s : Session)
    (hok : stringOfRunes s.commandLineEditor.Buffer ≠ [] ∨ s.cmdhistory ≠ [])
    (hcur : -1 ≤ s.scrollbackEditor.Cursor) :
    ∃ s1, commitCommand p s = some s1 ∧
      (stringOfRunes s.commandLineEditor.Buffer ≠ [] →
        s1.cmdhistory = s.cmdhistory ++ [stringOfRunes s.commandLineEditor.Buffer] ∧
        fprint s.scrollbackEditor
          (p ++ lit " " ++ stringOfRunes s.commandLineEditor.Buffer ++ lit "\n") =
            some s1.scrollbackEditor) ∧
      (stringOfRunes s.commandLineEditor.Buffer = [] →
        s1.cmdhistory = s.cmdhistory ∧
        ∃ last, s.cmdhistory.getLast? = some last ∧
          fprint s.scrollbackEditor (p ++ lit " " ++ last ++ lit "\n") =
            some s1.scrollbackEditor) ∧
      s1.historyShown = s1.cmdhistory.length ∧
      s1.executed = s.executed ++ [stringOfRunes s.commandLineEditor.Buffer] := by
  by_cases hcmd : stringOfRunes s.commandLineEditor.Buffer = []
  · have hne : s.cmdhistory ≠ [] := hok.resolve_left (fun h => h hcmd)
    obtain ⟨last, hlast⟩ : ∃ last, s.cmdhistory.getLast? = some last := by
      cases hh : s.cmdhistory.getLast? with
      | none => exact absurd (List.getLast?_eq_none_iff.mp hh) hne
      | some last => exact ⟨last, rfl⟩
    obtain ⟨ed1, hed⟩ := fprint_isSome s.scrollbackEditor (p ++ lit " " ++ last ++ lit "\n") hcur
    simp only [commitCommand, hcmd, if_true, index_last, hlast, hed, Option.map_some']
    exact ⟨_, rfl, fun h => absurd rfl h, fun _ => ⟨rfl, last, rfl, hed⟩, rfl, rfl⟩
  · obtain ⟨ed1, hed⟩ := fprint_isSome s.scrollbackEditor
      (p ++ lit " " ++ stringOfRunes s.commandLineEditor.Buffer ++ lit "\n") hcur
    simp only [commitCommand, hcmd, if_false, hed, Option.map_some']
    exact ⟨_, rfl, fun _ => ⟨rfl, rfl⟩, fun h => h.elim, rfl, rfl⟩

theorem commitCommand_history_witness :
    ∃ s1, commitCommand (lit "dlv>") (historySession 2 []) = some s1 ∧
      s1.cmdhistory = [lit "continue", lit "next"] ∧ s1.historyShown = 2 := by
  obtain ⟨s1, h1, _, h3, h4, _⟩ :=
    commitCommand_history (lit "dlv>") (historySession 2 []) (Or.inr (by decide)) (by decide)
  have h5 := (h3 rfl).1
  exact ⟨s1, h1, h5, by rw [h4, h5]; rfl⟩

/-- C9: the code fails the claim.  With an empty history, submitting an empty command
line evaluates `cmdhistory[len(cmdhistory)-1]` at index -1 and panics: no history and
no recall cursor result. -/
theorem commitCommand_empty_history :
    (idleSession (-1) (-1) 0).cmdhistory = [] ∧
    stringOfRunes (idleSession (-1) (-1) 0).commandLineEditor.Buffer = [] ∧
    index (idleSession (-1) (-1) 0).cmdhistory
      (((idleSession (-1) (-1) 0).cmdhistory.length : Int) - 1) = none ∧
    commitCommand (currentPrompt (idleSession (-1) (-1) 0)) (idleSession (-1) (-1) 0) = none ∧
    updateCommandPanel true [] id (fun ed => (ed, true)) (idleSession (-1) (-1) 0) = none :=
  ⟨rfl, rfl, rfl, rfl, rfl⟩

/-! ## `refreshState`: the frame -/

theorem index_natCast {α : Type} (xs : List α) (n : Nat) : index xs (n : Int) = xs[n]? := by
  simp [index]

/-- The test of the loop of `refreshToUserFrame` on a function name. -/
theorem userVisible_iff (f : Stackframe) (fn : Function) (h : f.Location.Function = some fn) :
    userVisible f ↔
      (¬ List.isPrefixOf runtimeprefix fn.Name = true ∨
        (fn.Name.length > List.length runtimeprefix ∧
          ∃ ch, fn.Name[List.length runtimeprefix]? = some ch ∧ 65 ≤ ch ∧ ch ≤ 90)) := by
  simp only [userVisible, h, Option.some.injEq, exists_eq_left', List.isPrefixOf_iff_prefix,
    List.append_eq]
  constructor
  · rintro (hp | ⟨ch, rest, hname, hch⟩)
    · exact Or.inl hp
    · right
      rw [hname]
      refine ⟨by simp, ch, ?_, hch⟩
      rw [List.getElem?_append_right (le_refl _)]
      simp
  · rintro (hp | ⟨_, ch, hget, hch⟩)
    · exact Or.inl hp
    · by_cases hp : List.IsPrefix runtimeprefix fn.Name
      · obtain ⟨t, ht⟩ := hp
        right
        rw [← ht] at hget
        rw [List.getElem?_append_right (le_refl _)] at hget
        simp only [Nat.sub_self] at hget
        cases t with
        | nil => simp at hget
        | cons c rest =>
          simp only [List.getElem?_cons_zero, Option.some.injEq] at hget
          exact ⟨ch, rest, by rw [← ht, hget], hch⟩
      · exact Or.inl hp

theorem not_userVisible_of_no_function (f : Stackframe) (h : f.Location.Function = none) :
    ¬ userVisible f := by
  rintro ⟨fn, hfn, _⟩
  rw [h] at hfn
  exact absurd hfn (by simp)

/-- The loop of `refreshToUserFrame` ends, at the first user-visible frame or, when
there is none, with `curFrame` as it was. -/
theorem userFrameLoop_spec (frames : List Stackframe) : ∀ (i cur : Int),
    ∃ k, userFrameLoop frames i cur = some k ∧
      ((k = cur ∧ ∀ f ∈ frames, ¬ userVisible f) ∨
        ∃ j : Nat, k = i + j ∧ ∃ f, frames[j]? = some f ∧ userVisible f ∧
          ∀ (j2 : Nat) (f2 : Stackframe), j2 < j → frames[j2]? = some f2 → ¬ userVisible f2) := by
  induction frames with
  | nil => intro i cur; exact ⟨cur, rfl, Or.inl ⟨rfl, by simp⟩⟩
  | cons f fs ih =>
    intro i cur
    have hskip : ¬ userVisible f →
        ∃ k, userFrameLoop fs (i + 1) cur = some k ∧
          ((k = cur ∧ ∀ f2 ∈ f :: fs, ¬ userVisible f2) ∨
            ∃ j : Nat, k = i + j ∧ ∃ f2, (f :: fs)[j]? = some f2 ∧ userVisible f2 ∧
              ∀ (j2 : Nat) (f3 : Stackframe), j2 < j → (f :: fs)[j2]? = some f3 →
                ¬ userVisible f3) := by
      intro hnot
      obtain ⟨k, hk, hcase⟩ := ih (i + 1) cur
      refine ⟨k, hk, ?_⟩
      rcases hcase with ⟨hkc, hall⟩ | ⟨j, hkj, f2, hf2, hv, hleast⟩
      · left
        refine ⟨hkc, ?_⟩
        intro f2 hf2
        rcases List.mem_cons.mp hf2 with h | h
        · rw [h]; exact hnot
        · exact hall f2 h
      · right
        refine ⟨j + 1, by push_cast; omega, f2, by simpa using hf2, hv, ?_⟩
        intro j2 f3 hj2 hf3
        cases j2 with
        | zero =>
          simp only [List.getElem?_cons_zero, Option.some.injEq] at hf3
          rw [← hf3]; exact hnot
        | succ j3 =>
          simp only [List.getElem?_cons_succ] at hf3
          exact hleast j3 f3 (by omega) hf3
    have hstop : userVisible f →
        ∃ j : Nat, i = i + j ∧ ∃ f2, (f :: fs)[j]? = some f2 ∧ userVisible f2 ∧
          ∀ (j2 : Nat) (f3 : Stackframe), j2 < j → (f :: fs)[j2]? = some f3 →
            ¬ userVisible f3 :=
      fun hv => ⟨0, by simp, f, by simp, hv, fun j2 _ hj2 => absurd hj2 (by omega)⟩
    cases hfn : f.Location.Function with
    | none =>
      simp only [userFrameLoop, hfn]
      exact hskip (not_userVisible_of_no_function f hfn)
    | some fn =>
      have hiff := userVisible_iff f fn hfn
      simp only [userFrameLoop, hfn]
      by_cases hp : List.isPrefixOf runtimeprefix fn.Name = true
      · rw [if_neg (by simpa using hp)]
        by_cases hlen : fn.Name.length > List.length runtimeprefix
        · rw [if_pos hlen, index_natCast]
          have hget : fn.Name[List.length runtimeprefix]? =
              some (fn.Name[List.length runtimeprefix]) := List.getElem?_eq_getElem hlen
          rw [hget]
          simp only
          by_cases hch : 65 ≤ fn.Name[List.length runtimeprefix] ∧
              fn.Name[List.length runtimeprefix] ≤ 90
          · rw [if_pos hch]
            exact ⟨i, rfl, Or.inr (hstop (hiff.mpr (Or.inr ⟨hlen, _, hget, hch⟩)))⟩
          · rw [if_neg hch]
            apply hskip
            rw [hiff]
            rintro (h | ⟨_, ch, hc1, hc2⟩)
            · exact h hp
            · rw [hget] at hc1
              simp only [Option.some.injEq] at hc1
              rw [hc1] at hch
              exact hch hc2
        · rw [if_neg hlen]
          apply hskip
          rw [hiff]
          rintro (h | ⟨h, _⟩)
          · exact h hp
          · exact hlen h
      · rw [if_pos (by simpa using hp)]
        exact ⟨i, rfl, Or.inr (hstop (hiff.mpr (Or.inl hp)))⟩

/-! ## `refreshState`: the whole call -/

theorem failstate_eq_some (s s1 : Session) (pos : List Nat) (err : Error)
    (h : failstate s pos err = some s1) :
    s1.curThread = -1 ∧ s1.curGid = -1 ∧ s1.curFrame = 0 ∧
      s1.listingPanel = s.listingPanel ∧ s1.cleared = s.cleared ∧
      s1.nextInProgress = s.nextInProgress ∧ s1.wndChanged = s.wndChanged ∧
      fprint s.scrollbackEditor
        (lit "Error refreshing state " ++ pos ++ lit ": " ++ err ++ lit "\n") =
          some s1.scrollbackEditor := by
  simp only [failstate, Option.map_eq_some'] at h
  obtain ⟨ed, hed, hs⟩ := h
  subst hs
  exact ⟨rfl, rfl, rfl, rfl, rfl, rfl, rfl, hed⟩

theorem failstate_isSome (s : Session) (pos : List Nat) (err : Error)
    (h : -1 ≤ s.scrollbackEditor.Cursor) : ∃ s1, failstate s pos err = some s1 := by
  obtain ⟨ed, hed⟩ := fprint_isSome s.scrollbackEditor
    (lit "Error refreshing state " ++ pos ++ lit ": " ++ err ++ lit "\n") h
  simp only [failstate, hed, Option.map_some']
  exact ⟨_, rfl⟩

/-- The listing block clears no cache and either keeps `curFrame` or, through
`failstate`, resets it to 0. -/
theorem buildListing_eq_some (env : Env) (s s1 : Session) (loc : Location)
    (h : buildListing env s loc = some s1) :
    s1.cleared = s.cleared ∧
      (s1.curFrame = s.curFrame ∨
        (s1.curFrame = 0 ∧ s1.curThread = -1 ∧ s1.curGid = -1)) := by
  simp only [buildListing] at h
  split at h
  · exact absurd h (by simp)
  · split at h
    · obtain ⟨h1, h2, h3, _, h5, _⟩ := failstate_eq_some _ _ _ _ h
      exact ⟨h5, Or.inr ⟨h3, h1, h2⟩⟩
    · split at h
      · obtain ⟨h1, h2, h3, _, h5, _⟩ := failstate_eq_some _ _ _ _ h
        exact ⟨h5, Or.inr ⟨h3, h1, h2⟩⟩
      · split at h
        · obtain ⟨h1, h2, h3, _, h5, _⟩ := failstate_eq_some _ _ _ _ h
          exact ⟨h5, Or.inr ⟨h3, h1, h2⟩⟩
        · split at h
          · obtain ⟨h1, h2, h3, _, h5, _⟩ := failstate_eq_some _ _ _ _ h
            exact ⟨h5, Or.inr ⟨h3, h1, h2⟩⟩
          · simp only [Option.some.injEq] at h
            subst h
            exact ⟨rfl, Or.inl rfl⟩

theorem selectThread_cleared (st : DebuggerState) (s : Session) :
    (selectThread st s).cleared = s.cleared ∧ (selectThread st s).client = s.client := by
  simp only [selectThread]
  cases st.CurrentThread <;> exact ⟨rfl, rfl⟩

/-- A refresh whose state fetch succeeds and whose `switch toframe` finds the frame
`cf`: the caches of `clearKind` are cleared, and `curFrame` is `cf` unless a later
step fails and `failstate` resets it. -/
theorem refreshState_found (env : Env) (toframe : refreshToFrame) (kind : clearKind)
    (st0 : Option DebuggerState) (s s1 : Session) (st : DebuggerState) (cf : Int)
    (loc : Option Location)
    (hfetch : fetchState st0 s = some (.ok st))
    (hres : resolveFrame (selectThread st s).client toframe st (selectThread st s).curGid
      (selectThread st s).curFrame = some (Resolved.found cf loc))
    (h : refreshState env toframe kind st0 s = some s1) :
    s1.cleared = s.cleared ++ clearCalls kind ∧
      (s1.curFrame = cf ∨ (s1.curFrame = 0 ∧ s1.curThread = -1 ∧ s1.curGid = -1)) := by
  simp only [refreshState, Option.map_eq_some'] at h
  obtain ⟨s2, hbody, hs⟩ := h
  subst hs
  simp only [refreshBody, hfetch, hres] at hbody
  cases loc with
  | none =>
    simp only [Option.some.injEq] at hbody
    subst hbody
    exact ⟨by simp only [(selectThread_cleared st s).1], Or.inl rfl⟩
  | some l =>
    simp only at hbody
    obtain ⟨h1, h2⟩ := buildListing_eq_some env _ s2 l hbody
    exact ⟨by rw [h1]; simp only [(selectThread_cleared st s).1], h2⟩

/-- Whatever happens, a refresh that returns has cleared nothing or exactly the
caches of `clearKind`. -/
theorem refreshState_cleared (env : Env) (toframe : refreshToFrame) (kind : clearKind)
    (st0 : Option DebuggerState) (s s1 : Session)
    (h : refreshState env toframe kind st0 s = some s1) :
    s1.cleared = s.cleared ∨ s1.cleared = s.cleared ++ clearCalls kind := by
  have h0 := h
  simp only [refreshState, Option.map_eq_some'] at h
  obtain ⟨s2, hbody, hs⟩ := h
  subst hs
  simp only [refreshBody] at hbody
  cases hfetch : fetchState st0 s with
  | none => rw [hfetch] at hbody; exact absurd hbody (by simp)
  | some r =>
    cases r with
    | error err =>
      rw [hfetch] at hbody
      exact Or.inl (failstate_eq_some _ _ _ _ hbody).2.2.2.2.1
    | ok st =>
      rw [hfetch] at hbody
      simp only at hbody
      cases hres : resolveFrame (selectThread st s).client toframe st
          (selectThread st s).curGid (selectThread st s).curFrame with
      | none => rw [hres] at hbody; exact absurd hbody (by simp)
      | some r =>
        cases r with
        | failed pos err =>
          rw [hres] at hbody
          left
          rw [(failstate_eq_some _ _ _ _ hbody).2.2.2.2.1, (selectThread_cleared st s).1]
        | found cf loc =>
          exact Or.inr (refreshState_found env toframe kind st0 s _ st cf loc hfetch hres h0).1

/-! ## `refreshState`: the claims -/

/-- C5 (as amended): with a non-empty stack, `refreshToUserFrame` selects the least
index whose frame has a function that is user-visible (the name does not begin with
`runtime.`, or an upper-case letter follows `runtime.`), and index 0 when no frame
is; frames without a function are skipped.  The location is that frame's.  When frame
0 is user-visible the index is 0.  After the whole call `curFrame` is that index,
unless a later step fails and `failstate` resets it to 0. -/
theorem userFrame_selection (client : Client) (state : DebuggerState) (gid frame : Int)
    (frames : List Stackframe) (hst : client.Stacktrace gid 20 = .ok frames)
    (hne : frames ≠ []) :
    ∃ (k : Nat) (f : Stackframe), frames[k]? = some f ∧
      resolveFrame (some client) refreshToFrame.refreshToUserFrame state gid frame =
        some (Resolved.found k (some f.Location)) ∧
      (∀ (j : Nat) (fj : Stackframe), j < k → frames[j]? = some fj → ¬ userVisible fj) ∧
      (userVisible f ∨ (k = 0 ∧ ∀ fj ∈ frames, ¬ userVisible fj)) ∧
      (∀ f0, frames[0]? = some f0 → userVisible f0 → k = 0) ∧
      (∀ (env : Env) (kind : clearKind) (st0 : Option DebuggerState) (s s1 : Session),
        s.client = some client → fetchState st0 s = some (.ok state) →
        (selectThread state s).curGid = gid →
        refreshState env refreshToFrame.refreshToUserFrame kind st0 s = some s1 →
        s1.curFrame = k ∨ (s1.curFrame = 0 ∧ s1.curThread = -1 ∧ s1.curGid = -1)) := by
  obtain ⟨k, hk, hcase⟩ := userFrameLoop_spec frames 0 0
  have hlen : frames.length ≠ 0 := fun h => hne (List.length_eq_zero.mp h)
  have hres : ∀ (n : Nat) (f : Stackframe), k = (n : Int) → frames[n]? = some f →
      ∀ fr : Int, resolveFrame (some client) refreshToFrame.refreshToUserFrame state gid fr =
        some (Resolved.found n (some f.Location)) := by
    intro n f hkn hf fr
    simp only [resolveFrame, callStacktrace, Option.map_some', hst, if_neg hlen, hk, hkn,
      index_natCast, hf]
  have hwhole : ∀ (n : Nat) (f : Stackframe), k = (n : Int) → frames[n]? = some f →
      ∀ (env : Env) (kind : clearKind) (st0 : Option DebuggerState) (s s1 : Session),
        s.client = some client → fetchState st0 s = some (.ok state) →
        (selectThread state s).curGid = gid →
        refreshState env refreshToFrame.refreshToUserFrame kind st0 s = some s1 →
        s1.curFrame = n ∨ (s1.curFrame = 0 ∧ s1.curThread = -1 ∧ s1.curGid = -1) := by
    intro n f hkn hf env kind st0 s s1 hc hfetch hgid h
    refine (refreshState_found env _ kind st0 s s1 state n (some f.Location) hfetch ?_ h).2
    rw [(selectThread_cleared state s).2, hc, hgid]
    exact hres n f hkn hf _
  rcases hcase with ⟨hk0, hall⟩ | ⟨j, hkj, f, hf, hv, hleast⟩
  · obtain ⟨f0, hf0⟩ : ∃ f0, frames[0]? = some f0 := by
      cases frames with
      | nil => exact absurd rfl hne
      | cons a _ => exact ⟨a, by simp⟩
    refine ⟨0, f0, hf0, hres 0 f0 (by simpa using hk0) hf0 frame,
      fun j _ hj => absurd hj (by omega), Or.inr ⟨rfl, hall⟩, fun _ _ _ => rfl,
      hwhole 0 f0 (by simpa using hk0) hf0⟩
  · have hkj2 : k = (j : Int) := by omega
    refine ⟨j, f, hf, hres j f hkj2 hf frame, hleast, Or.inl hv, ?_, hwhole j f hkj2 hf⟩
    intro f0 hf0 hv0
    by_contra hj
    exact hleast 0 f0 (Nat.pos_of_ne_zero hj) hf0 hv0

theorem userFrame_selection_witness :
    ∃ (k : Nat) (f : Stackframe) (s1 : Session),
      [frameNamed "runtime.gopark", frameNamed "runtime.Gosched", frameNamed "main.main"][k]?
        = some f ∧
      resolveFrame
        (some (stackClient
          [frameNamed "runtime.gopark", frameNamed "runtime.Gosched", frameNamed "main.main"]))
        refreshToFrame.refreshToUserFrame stoppedState (-1) 0 =
          some (Resolved.found k (some f.Location)) ∧
      userVisible f ∧
      refreshState sampleEnv refreshToFrame.refreshToUserFrame clearKind.clearFrameSwitch none
        (stackSession
          [frameNamed "runtime.gopark", frameNamed "runtime.Gosched", frameNamed "main.main"]
          0) = some s1 ∧
      (s1.curFrame = k ∨ (s1.curFrame = 0 ∧ s1.curThread = -1 ∧ s1.curGid = -1)) := by
  obtain ⟨k, f, h1, h2, _, h4, _, h6⟩ := userFrame_selection
    (stackClient
      [frameNamed "runtime.gopark", frameNamed "runtime.Gosched", frameNamed "main.main"])
    stoppedState (-1) 0
    [frameNamed "runtime.gopark", frameNamed "runtime.Gosched", frameNamed "main.main"]
    rfl (by simp)
  obtain ⟨s1, hs1⟩ : ∃ s1, refreshState sampleEnv refreshToFrame.refreshToUserFrame
      clearKind.clearFrameSwitch none
      (stackSession
        [frameNamed "runtime.gopark", frameNamed "runtime.Gosched", frameNamed "main.main"]
        0) = some s1 := ⟨_, rfl⟩
  refine ⟨k, f, s1, h1, h2, ?_, hs1,
    h6 sampleEnv clearKind.clearFrameSwitch none
      (stackSession
        [frameNamed "runtime.gopark", frameNamed "runtime.Gosched", frameNamed "main.main"]
        0) s1 rfl rfl rfl hs1⟩
  rcases h4 with h | ⟨_, h⟩
  · exact h
  · exfalso
    refine h (frameNamed "main.main") (by simp) ⟨_, rfl, Or.inl ?_⟩
    decide

/-- C5 (as stated) fails: of the two frames, the first without a function and the
second in `main.main`, no function name has the prefix `runtime.`, yet the frame
chosen is index 1, not index 0. -/
theorem userFrame_skips_unnamed :
    (∀ f ∈ [frameUnnamed, frameNamed "main.main"], ∀ fn, f.Location.Function = some fn →
      ¬ List.IsPrefix runtimeprefix fn.Name) ∧
    resolveFrame (some (stackClient [frameUnnamed, frameNamed "main.main"]))
      refreshToFrame.refreshToUserFrame stoppedState (-1) 0 =
        some (Resolved.found 1 (some (frameNamed "main.main").Location)) ∧
    (∃ s1, refreshState sampleEnv refreshToFrame.refreshToUserFrame clearKind.clearStop none
      (stackSession [frameUnnamed, frameNamed "main.main"] 0) = some s1 ∧
      s1.curFrame = 1 ∧ s1.curFrame ≠ 0) := by
  refine ⟨?_, by decide, ⟨_, rfl, by decide, by decide⟩⟩
  intro f hf fn hfn
  simp only [List.mem_cons, List.mem_singleton, List.not_mem_nil, or_false] at hf
  rcases hf with hf | hf
  · subst hf
    exact absurd hfn (by simp [frameUnnamed])
  · subst hf
    simp only [frameNamed, Option.some.injEq] at hfn
    subst hfn
    decide

/-- C6: in the case `refreshToSameFrame` with a successful `Stacktrace`, a previous
frame index `f ≥ 0` and `n` fetched frames, the frame becomes 0 when `f ≥ n` and stays
`f` otherwise; it is never negative; the location is `frames[curFrame]` when
`curFrame < n` and absent otherwise, which happens for `n = 0` only, and no lookup
panics.  After the whole call `curFrame` is that index or 0, never negative. -/
theorem sameFrame_selection (client : Client) (state : DebuggerState) (gid f : Int)
    (frames : List Stackframe) (hf : 0 ≤ f)
    (hst : client.Stacktrace gid (f + 1) = .ok frames) :
    ∃ loc : Option Location,
      resolveFrame (some client) refreshToFrame.refreshToSameFrame state gid f =
        some (Resolved.found (if f ≥ frames.length then 0 else f) loc) ∧
      (0 : Int) ≤ (if f ≥ frames.length then 0 else f) ∧
      ((if f ≥ (frames.length : Int) then (0 : Int) else f) < frames.length →
        ∃ fr, frames[(if f ≥ (frames.length : Int) then (0 : Int) else f).toNat]? = some fr ∧
          loc = some fr.Location) ∧
      (¬ (if f ≥ (frames.length : Int) then (0 : Int) else f) < frames.length →
        loc = none ∧ frames = []) ∧
      (∀ (env : Env) (kind : clearKind) (st0 : Option DebuggerState) (s s1 : Session),
        s.client = some client → fetchState st0 s = some (.ok state) →
        (selectThread state s).curGid = gid → (selectThread state s).curFrame = f →
        refreshState env refreshToFrame.refreshToSameFrame kind st0 s = some s1 →
        0 ≤ s1.curFrame ∧
          (s1.curFrame = (if f ≥ (frames.length : Int) then (0 : Int) else f) ∨
            s1.curFrame = 0)) := by
  have hcf : (0 : Int) ≤ (if f ≥ (frames.length : Int) then (0 : Int) else f) := by
    split_ifs <;> omega
  have hwhole : ∀ loc : Option Location,
      resolveFrame (some client) refreshToFrame.refreshToSameFrame state gid f =
        some (Resolved.found (if f ≥ frames.length then 0 else f) loc) →
      ∀ (env : Env) (kind : clearKind) (st0 : Option DebuggerState) (s s1 : Session),
        s.client = some client → fetchState st0 s = some (.ok state) →
        (selectThread state s).curGid = gid → (selectThread state s).curFrame = f →
        refreshState env refreshToFrame.refreshToSameFrame kind st0 s = some s1 →
        0 ≤ s1.curFrame ∧
          (s1.curFrame = (if f ≥ (frames.length : Int) then (0 : Int) else f) ∨
            s1.curFrame = 0) := by
    intro loc hres env kind st0 s s1 hc hfetch hgid hfr h
    have h2 := (refreshState_found env _ kind st0 s s1 state _ loc hfetch
      (by rw [(selectThread_cleared state s).2, hc, hgid, hfr]; exact hres) h).2
    rcases h2 with h2 | ⟨h2, _⟩
    · exact ⟨by rw [h2]; exact hcf, Or.inl h2⟩
    · exact ⟨by rw [h2], Or.inr h2⟩
  by_cases hlt : (if f ≥ (frames.length : Int) then (0 : Int) else f) < frames.length
  · obtain ⟨fr, hfr⟩ := index_isSome frames _ hcf hlt
    have hres : resolveFrame (some client) refreshToFrame.refreshToSameFrame state gid f =
        some (Resolved.found (if f ≥ frames.length then 0 else f) (some fr.Location)) := by
      simp only [resolveFrame, callStacktrace, Option.map_some', hst, if_pos hlt, hfr]
    refine ⟨some fr.Location, hres, hcf, fun _ => ⟨fr, ?_, rfl⟩, fun h => absurd hlt h,
      hwhole _ hres⟩
    simpa [index, hcf] using hfr
  · have hres : resolveFrame (some client) refreshToFrame.refreshToSameFrame state gid f =
        some (Resolved.found (if f ≥ frames.length then 0 else f) none) := by
      simp only [resolveFrame, callStacktrace, Option.map_some', hst, if_neg hlt]
    refine ⟨none, hres, hcf, fun h => absurd h hlt, fun _ => ⟨rfl, ?_⟩, hwhole _ hres⟩
    apply List.length_eq_zero.mp
    split_ifs at hlt <;> omega

theorem sameFrame_selection_witness :
    ∃ (loc : Option Location) (s1 : Session),
      resolveFrame (some (stackClient [frameNamed "main.main"]))
        refreshToFrame.refreshToSameFrame stoppedState (-1) 3 =
          some (Resolved.found 0 loc) ∧
      loc = some (frameNamed "main.main").Location ∧
      refreshState sampleEnv refreshToFrame.refreshToSameFrame clearKind.clearFrameSwitch none
        (stackSession [frameNamed "main.main"] 3) = some s1 ∧
      0 ≤ s1.curFrame := by
  obtain ⟨loc, h1, _, h3, _, h5⟩ := sameFrame_selection (stackClient [frameNamed "main.main"])
    stoppedState (-1) 3 [frameNamed "main.main"] (by decide) rfl
  obtain ⟨fr, hfr, hloc⟩ := h3 (by decide)
  obtain ⟨s1, hs1⟩ : ∃ s1, refreshState sampleEnv refreshToFrame.refreshToSameFrame
      clearKind.clearFrameSwitch none (stackSession [frameNamed "main.main"] 3) = some s1 :=
    ⟨_, rfl⟩
  refine ⟨loc, s1, h1, ?_, hs1,
    (h5 sampleEnv clearKind.clearFrameSwitch none (stackSession [frameNamed "main.main"] 3)
      s1 rfl rfl rfl rfl hs1).1⟩
  rw [hloc]
  have : fr = frameNamed "main.main" := by simpa using hfr.symm
  rw [this]

/-- C7: the caches cleared by `refreshState` depend on `clearKind` alone:
`clearFrameSwitch` clears locals and expressions, `clearGoroutineSwitch` these and
stack and registers, `clearStop` all eight, `clearBreakpoint` the breakpoints only,
each once.  The set of `clearStop` strictly contains that of `clearFrameSwitch`, the
set of `clearGoroutineSwitch` contains it.  A refresh that reaches the
`switch clearKind` clears exactly these; one that aborts before clears nothing. -/
theorem clearCalls_sets :
    (clearCalls clearKind.clearFrameSwitch).toFinset = {Panel.locals, Panel.exprs} ∧
    (clearCalls clearKind.clearGoroutineSwitch).toFinset =
      {Panel.locals, Panel.exprs, Panel.stack, Panel.regs} ∧
    (clearCalls clearKind.clearStop).toFinset =
      {Panel.locals, Panel.exprs, Panel.regs, Panel.goroutines, Panel.stack, Panel.threads,
        Panel.globals, Panel.breakpoints} ∧
    (∀ p : Panel, p ∈ clearCalls clearKind.clearStop) ∧
    (clearCalls clearKind.clearBreakpoint).toFinset = {Panel.breakpoints} ∧
    (∀ kind, (clearCalls kind).Nodup) ∧
    (clearCalls clearKind.clearFrameSwitch).toFinset ⊂
      (clearCalls clearKind.clearStop).toFinset ∧
    (clearCalls clearKind.clearFrameSwitch).toFinset ⊆
      (clearCalls clearKind.clearGoroutineSwitch).toFinset ∧
    (∀ (env : Env) (toframe : refreshToFrame) (kind : clearKind)
      (st0 : Option DebuggerState) (s s1 : Session) (st : DebuggerState) (cf : Int)
      (loc : Option Location),
      fetchState st0 s = some (.ok st) →
      resolveFrame (selectThread st s).client toframe st (selectThread st s).curGid
        (selectThread st s).curFrame = some (Resolved.found cf loc) →
      refreshState env toframe kind st0 s = some s1 →
      s1.cleared = s.cleared ++ clearCalls kind) ∧
    (∀ (env : Env) (toframe : refreshToFrame) (kind : clearKind)
      (st0 : Option DebuggerState) (s s1 : Session),
      refreshState env toframe kind st0 s = some s1 →
      s1.cleared = s.cleared ∨ s1.cleared = s.cleared ++ clearCalls kind) := by
  refine ⟨by decide, by decide, by decide, ?_, by decide, ?_, by decide, by decide, ?_, ?_⟩
  · intro p; cases p <;> decide
  · intro kind; cases kind <;> decide
  · intro env toframe kind st0 s s1 st cf loc hfetch hres h
    exact (refreshState_found env toframe kind st0 s s1 st cf loc hfetch hres h).1
  · intro env toframe kind st0 s s1 h
    exact refreshState_cleared env toframe kind st0 s s1 h

theorem clearCalls_sets_witness :
    ∃ s1, refreshState sampleEnv refreshToFrame.refreshToFrameZero
        clearKind.clearGoroutineSwitch none (stackSession [frameNamed "main.main"] 0) =
          some s1 ∧
      s1.cleared = [Panel.stack, Panel.locals, Panel.exprs, Panel.regs] :=
  ⟨_, rfl,
    clearCalls_sets.2.2.2.2.2.2.2.2.1 sampleEnv refreshToFrame.refreshToFrameZero
      clearKind.clearGoroutineSwitch none (stackSession [frameNamed "main.main"] 0) _
      stoppedState 0 (some (threadLocation
        { ID := 1, PC := 4096, File := lit "main.go", Line := 1 })) rfl rfl rfl⟩

/-- C8: when `refreshState` is called without a state and `client.GetState()` fails,
then afterwards `curThread = -1`, `curGid = -1` and `curFrame = 0`, while the listing
panel (listing and disassembly) and every panel cache are as before; the error is
written to the scrollback and `wnd.Changed()` has run.  The call returns whenever the
scrollback cursor is at least -1. -/
theorem refreshState_GetState_error (env : Env) (toframe : refreshToFrame)
    (kind : clearKind) (s : Session) (client : Client) (err : Error)
    (hc : s.client = some client) (hg : client.GetState = .error err) :
    (-1 ≤ s.scrollbackEditor.Cursor →
      ∃ s1, refreshState env toframe kind none s = some s1) ∧
    (∀ s1, refreshState env toframe kind none s = some s1 →
      s1.curThread = -1 ∧ s1.curGid = -1 ∧ s1.curFrame = 0 ∧
      s1.listingPanel = s.listingPanel ∧ s1.cleared = s.cleared ∧
      s1.nextInProgress = s.nextInProgress ∧ s1.wndChanged = s.wndChanged + 1 ∧
      fprint s.scrollbackEditor
        (lit "Error refreshing state " ++ lit "GetState()" ++ lit ": " ++ err ++ lit "\n") =
          some s1.scrollbackEditor) := by
  have hbody : refreshBody env toframe kind none s = failstate s (lit "GetState()") err := by
    simp only [refreshBody, fetchState, hc, Option.map_some', hg]
  constructor
  · intro hcur
    obtain ⟨s1, h1⟩ := failstate_isSome s (lit "GetState()") err hcur
    simp only [refreshState, hbody, h1, Option.map_some']
    exact ⟨_, rfl⟩
  · intro s1 h
    simp only [refreshState, hbody, Option.map_eq_some'] at h
    obtain ⟨s2, h2, hs⟩ := h
    subst hs
    obtain ⟨a1, a2, a3, a4, a5, a6, a7, a8⟩ := failstate_eq_some _ _ _ _ h2
    exact ⟨a1, a2, a3, a4, a5, a6, by simp only [a7], a8⟩

theorem refreshState_GetState_error_witness :
    ∃ s1, refreshState sampleEnv refreshToFrame.refreshToSameFrame clearKind.clearStop none
        (idleSession 4 7 2) = some s1 ∧
      s1.curThread = -1 ∧ s1.curGid = -1 ∧ s1.curFrame = 0 := by
  obtain ⟨h1, h2⟩ := refreshState_GetState_error sampleEnv refreshToFrame.refreshToSameFrame
    clearKind.clearStop (idleSession 4 7 2) failingClient (lit "unavailable") rfl rfl
  obtain ⟨s1, hs1⟩ := h1 (by decide)
  obtain ⟨a1, a2, a3, _⟩ := h2 s1 hs1
  exact ⟨s1, hs1, a1, a2, a3⟩

/-! ## The cursor of the scrollback -/

/-- The scan panics exactly when one of the indices it reads is outside the buffer. -/
theorem scanLoop_eq_none_iff (buf : List Nat) (old : Int) (k : Nat) :
    scanLoop buf old k = none ↔ ∃ i ∈ scanReadsLoop buf old k, index buf i = none := by
  induction k with
  | zero => simp [scanLoop, scanReadsLoop]
  | succ k ih =>
    simp only [scanLoop, scanReadsLoop]
    cases hx : index buf (old + (k + 1 : Nat)) with
    | none => simp only [List.mem_singleton, exists_eq_left, hx]
    | some c =>
      by_cases hc : c = 10
      · simp only [hc, if_true, List.mem_singleton, exists_eq_left, hx, reduceCtorEq]
      · simp only [hc, if_false, List.mem_cons, exists_eq_or_imp, hx, reduceCtorEq, false_or]
        exact ih

theorem scanBack_eq_none_iff (buf : List Nat) (old : Int) :
    scanBack buf old = none ↔ ∃ i ∈ scanReads buf old, index buf i = none := by
  simp only [scanBack, scanReads]
  split_ifs
  · exact scanLoop_eq_none_iff buf old _
  · simp

theorem scanReadsLoop_bounds (buf : List Nat) (old : Int) :
    ∀ k : Nat, ∀ i ∈ scanReadsLoop buf old k, old < i ∧ i ≤ old + k := by
  intro k
  induction k with
  | zero => intro i hi; simp [scanReadsLoop] at hi
  | succ k ih =>
    intro i hi
    simp only [scanReadsLoop, List.mem_cons] at hi
    rcases hi with hi | hi
    · rw [hi]; constructor <;> omega
    · have hmem : i ∈ scanReadsLoop buf old k := by
        cases hx : index buf (old + (k + 1 : Nat)) with
        | none => rw [hx] at hi; simp at hi
        | some c =>
          rw [hx] at hi
          simp only at hi
          split_ifs at hi
          · simp at hi
          · exact hi
      obtain ⟨h1, h2⟩ := ih i hmem
      exact ⟨h1, by push_cast; omega⟩

theorem scanReads_bounds (buf : List Nat) (old : Int) :
    ∀ i ∈ scanReads buf old, old < i ∧ i ≤ (buf.length : Int) - 2 := by
  intro i hi
  simp only [scanReads] at hi
  split_ifs at hi with h
  · obtain ⟨h1, h2⟩ := scanReadsLoop_bounds buf old _ i hi
    exact ⟨h1, by omega⟩
  · simp at hi

theorem Write_reads_in_range (ed : TextEditor) (b : List Nat) (h0 : 0 ≤ ed.Cursor) :
    ∀ i ∈ scanReads (appendTruncate ed b).1 (appendTruncate ed b).2,
      0 ≤ i ∧ i < (appendTruncate ed b).1.length := by
  intro i hi
  have hold := appendTruncate_cursor ed b 0 (le_refl _) h0
  obtain ⟨h1, h2⟩ := scanReads_bounds _ _ i hi
  constructor <;> omega

/-- The invariant of the scrollback: two characters at least, the cursor inside. -/
theorem writeAll_invariant (bs : List (List Nat)) : ∀ ed : TextEditor,
    0 ≤ ed.Cursor → ed.Cursor ≤ ed.Buffer.length → 2 ≤ ed.Buffer.length →
    ∃ ed1, writeAll ed bs = some ed1 ∧ 0 ≤ ed1.Cursor ∧ ed1.Cursor ≤ ed1.Buffer.length ∧
      2 ≤ ed1.Buffer.length := by
  induction bs with
  | nil =>
    intro ed h0 h1 h2
    exact ⟨ed, rfl, h0, h1, h2⟩
  | cons b bs ih =>
    intro ed h0 _ h2
    obtain ⟨ed1, hw, h3, h4, h5⟩ := Write_safe ed b h0 (appendTruncate_length_ge ed b h2)
    simp only [writeAll, hw]
    exact ih ed1 h3 h4 (by rw [h5]; exact appendTruncate_length_ge ed b h2)

set_option maxRecDepth 100000 in
theorem banner_length : banner.length = 206 := by decide

set_option maxRecDepth 100000 in
theorem Write_banner :
    ∃ ed0, Write scrollbackInit banner = some (ed0, 206) ∧ ed0.Cursor = 155 ∧
      ed0.Buffer.length = 206 := by
  have h : (Write scrollbackInit banner).map
      (fun r => (r.1.Cursor, r.1.Buffer.length, r.2)) = some (155, 206, 206) := by decide
  cases hw : Write scrollbackInit banner with
  | none => rw [hw] at h; simp at h
  | some r =>
    rw [hw] at h
    simp only [Option.map_some', Option.some.injEq, Prod.mk.injEq] at h
    obtain ⟨r1, r2⟩ := r
    exact ⟨r1, by rw [← h.2.2], h.1, h.2.1⟩

/-- C10 (as amended): once the scrollback holds two characters at least and the
cursor is inside it, every sequence of `Write` calls with arbitrary byte slices, empty
and one-byte slices included, returns; every index that the backwards scan reads lies
in `[0, len(Buffer))`, and after each `Write` the cursor satisfies
`0 ≤ Cursor ≤ len(Buffer)`.  The first `Write` of the program, of the banner on the
initial editor, establishes this: it reads inside the buffer and leaves 206 characters
with the cursor at 155; so the same holds for every sequence of writes that follows
the banner. -/
theorem Write_cursor_in_range :
    (∀ (ed : TextEditor) (bs : List (List Nat)),
      0 ≤ ed.Cursor → ed.Cursor ≤ ed.Buffer.length → 2 ≤ ed.Buffer.length →
      ∃ ed1, writeAll ed bs = some ed1 ∧ 0 ≤ ed1.Cursor ∧ ed1.Cursor ≤ ed1.Buffer.length ∧
        2 ≤ ed1.Buffer.length ∧
        ∀ b : List Nat,
          (∀ i ∈ scanReads (appendTruncate ed1 b).1 (appendTruncate ed1 b).2,
            0 ≤ i ∧ i < (appendTruncate ed1 b).1.length) ∧
          ∃ ed2, Write ed1 b = some (ed2, b.length) ∧ 0 ≤ ed2.Cursor ∧
            ed2.Cursor ≤ ed2.Buffer.length) ∧
    (∃ ed0, Write scrollbackInit banner = some (ed0, banner.length) ∧
      ed0.Cursor = 155 ∧ ed0.Buffer.length = 206 ∧
      ∀ i ∈ scanReads (appendTruncate scrollbackInit banner).1
          (appendTruncate scrollbackInit banner).2,
        0 ≤ i ∧ i < (appendTruncate scrollbackInit banner).1.length) ∧
    (∀ bs : List (List Nat),
      ∃ ed1, writeAll scrollbackInit (banner :: bs) = some ed1 ∧ 0 ≤ ed1.Cursor ∧
        ed1.Cursor ≤ ed1.Buffer.length ∧
        ∀ b : List Nat,
          (∀ i ∈ scanReads (appendTruncate ed1 b).1 (appendTruncate ed1 b).2,
            0 ≤ i ∧ i < (appendTruncate ed1 b).1.length) ∧
          ∃ ed2, Write ed1 b = some (ed2, b.length) ∧ 0 ≤ ed2.Cursor ∧
            ed2.Cursor ≤ ed2.Buffer.length) := by
  have hgen : ∀ (ed : TextEditor) (bs : List (List Nat)),
      0 ≤ ed.Cursor → ed.Cursor ≤ ed.Buffer.length → 2 ≤ ed.Buffer.length →
      ∃ ed1, writeAll ed bs = some ed1 ∧ 0 ≤ ed1.Cursor ∧ ed1.Cursor ≤ ed1.Buffer.length ∧
        2 ≤ ed1.Buffer.length ∧
        ∀ b : List Nat,
          (∀ i ∈ scanReads (appendTruncate ed1 b).1 (appendTruncate ed1 b).2,
            0 ≤ i ∧ i < (appendTruncate ed1 b).1.length) ∧
          ∃ ed2, Write ed1 b = some (ed2, b.length) ∧ 0 ≤ ed2.Cursor ∧
            ed2.Cursor ≤ ed2.Buffer.length := by
    intro ed bs h0 h1 h2
    obtain ⟨ed1, hw, a0, a1, a2⟩ := writeAll_invariant bs ed h0 h1 h2
    refine ⟨ed1, hw, a0, a1, a2, fun b => ⟨Write_reads_in_range ed1 b a0, ?_⟩⟩
    obtain ⟨ed2, hw2, b0, b1, _⟩ := Write_safe ed1 b a0 (appendTruncate_length_ge ed1 b a2)
    exact ⟨ed2, hw2, b0, b1⟩
  obtain ⟨ed0, hb, hc, hl⟩ := Write_banner
  have hlen : banner.length = 206 := banner_length
  refine ⟨hgen, ⟨ed0, by rw [hlen]; exact hb, hc, hl,
    Write_reads_in_range scrollbackInit banner (by decide)⟩, fun bs => ?_⟩
  obtain ⟨ed1, hw, a0, a1, _, a3⟩ := hgen ed0 bs (by rw [hc]; decide)
    (by rw [hc, hl]; decide) (by rw [hl]; decide)
  refine ⟨ed1, ?_, a0, a1, a3⟩
  simp only [writeAll, hb]
  exact hw

theorem Write_cursor_in_range_witness :
    ∃ ed1, writeAll lineEditor [[], lit "a"] = some ed1 ∧ 0 ≤ ed1.Cursor ∧
      ed1.Cursor ≤ ed1.Buffer.length := by
  obtain ⟨ed1, h1, h2, h3, _⟩ :=
    Write_cursor_in_range.1 lineEditor [[], lit "a"] (by decide) (by decide) (by decide)
  exact ⟨ed1, h1, h2, h3⟩

/-- C10 (as stated) fails for `Write` on the empty editor: a `Write` of the empty slice
leaves `Cursor = -2`; the next `Write` of one byte reads `Buffer[-1]` and panics.  A
first `Write` of one byte leaves `Cursor = -1`. -/
theorem Write_cursor_negative :
    (∃ ed1, Write scrollbackInit [] = some (ed1, 0) ∧ ed1.Cursor = -2 ∧
      index (appendTruncate ed1 [97]).1 (((appendTruncate ed1 [97]).1.length : Int) - 2) = none ∧
      Write ed1 [97] = none) ∧
    writeAll scrollbackInit [[], [97]] = none ∧
    (∃ ed2, Write scrollbackInit [97] = some (ed2, 1) ∧ ed2.Cursor = -1) :=
  ⟨⟨_, rfl, by decide, by decide, by decide⟩, by decide, ⟨_, rfl, by decide⟩⟩

end Gdlv
